import Mathlib

/-!
Verification of the antconfig configuration library (Go).

The library fills a tag-annotated struct from five layered sources:
default tags, a JSON/JSONC config file, a .env file, OS environment
variables and command-line flags.  This file gives a shallow embedding
of `config.go` and proves the claimed properties of the layered
resolution engine.

Modelling conventions:
* Go strings are modelled as `List Char` (named `GoStr`), so that
  concatenation and prefix reasoning are plain list reasoning.
* The process environment and Go maps are modelled as association
  lists with one entry per key (`mapInsert` replaces in place).
* The reflection-driven record is modelled in two ways, matching the
  two shapes the claims need: a flat list of tagged fields (`CField`)
  for the staged resolution pipeline, and a tree (`RecVal`) for the
  nested-pointer allocation behaviour of `findFieldsWithTag`.
* Standard-library collaborators that the spec itself declares out of
  scope (`json.Unmarshal`, the JSONC normalizer `ToJSON`, `filepath`)
  are passed as explicit function parameters or modelled by small
  executable stand-ins, and no theorem depends on their internals.
-/

namespace AntCfg

/-- Go strings, modelled as lists of characters. -/
abbrev GoStr := List Char

/-- ASCII whitespace, standing in for `unicode.IsSpace` on the
characters the claims exercise. -/
def isSpaceChar (c : Char) : Bool :=
  c = ' ' || c = '\t' || c = '\n' || c = '\r' || c = '\x0b' || c = '\x0c'

/-- `strings.TrimSpace`, left side. -/
def trimLeftWs (s : GoStr) : GoStr := s.dropWhile isSpaceChar

/-- `strings.TrimSpace`, right side. -/
def trimRightWs (s : GoStr) : GoStr := (s.reverse.dropWhile isSpaceChar).reverse

/-- `strings.TrimSpace`. -/
def trimSpace (s : GoStr) : GoStr := trimRightWs (trimLeftWs s)

/-- `strings.HasPrefix`. -/
def startsWithL : GoStr → GoStr → Bool
  | _, [] => true
  | [], _ :: _ => false
  | c :: s, p :: ps => c = p && startsWithL s ps

/-- `strings.TrimPrefix`: drops `p` from the front of `s` when it is a
prefix, otherwise returns `s` unchanged. -/
def trimPfxL (s p : GoStr) : GoStr :=
  if startsWithL s p then s.drop p.length else s

/-- `strings.IndexByte`-style split at the first occurrence of `c`:
returns the part before and the part after, or `none` when `c` does
not occur. -/
def splitAtFirst (c : Char) : GoStr → Option (GoStr × GoStr)
  | [] => none
  | x :: xs =>
    if x = c then some ([], xs)
    else match splitAtFirst c xs with
      | none => none
      | some (l, r) => some (x :: l, r)

/-- `strings.Split(s, "\n")`. -/
def splitLines : GoStr → List GoStr
  | [] => [[]]
  | c :: rest =>
    if c = '\n' then [] :: splitLines rest
    else match splitLines rest with
      | [] => [[c]]
      | l :: ls => (c :: l) :: ls

/-- Decimal digit test, as used by `strconv`. -/
def isDigitChar (c : Char) : Bool := '0' ≤ c && c ≤ '9'

/-- Value of a nonempty all-digit string, `none` otherwise. -/
def digitsVal : GoStr → Option Nat
  | [] => none
  | [c] => if isDigitChar c then some (c.toNat - '0'.toNat) else none
  | c :: rest =>
    if isDigitChar c then
      match digitsVal rest with
      | none => none
      | some n => some ((c.toNat - '0'.toNat) * 10 ^ rest.length + n)
    else none

/-- `strconv.ParseInt(s, 10, bits)`: optional sign, decimal digits,
range check against the field's bit width. -/
def parseIntLit (s : GoStr) (bits : Nat) : Option Int :=
  let signed : Option Int :=
    match s with
    | '-' :: rest => (digitsVal rest).map (fun n => -(n : Int))
    | '+' :: rest => (digitsVal rest).map (fun n => (n : Int))
    | _ => (digitsVal s).map (fun n => (n : Int))
  match signed with
  | none => none
  | some v =>
    if -(2 ^ (bits - 1) : Int) ≤ v ∧ v < (2 ^ (bits - 1) : Int) then some v else none

/-- `strconv.ParseUint(s, 10, bits)`: decimal digits only, range check. -/
def parseUintLit (s : GoStr) (bits : Nat) : Option Nat :=
  match digitsVal s with
  | none => none
  | some v => if v < 2 ^ bits then some v else none

/-- `strconv.ParseBool`: the exact set of accepted literals. -/
def parseBoolLit (s : GoStr) : Option Bool :=
  if s = "1".toList ∨ s = "t".toList ∨ s = "T".toList ∨ s = "TRUE".toList ∨
     s = "true".toList ∨ s = "True".toList then some true
  else if s = "0".toList ∨ s = "f".toList ∨ s = "F".toList ∨ s = "FALSE".toList ∨
     s = "false".toList ∨ s = "False".toList then some false
  else none

/-- Recognizer for a `strconv.ParseFloat` literal (optional sign,
digits, optional fraction).  Float fields store their literal text in
this model: no claim depends on IEEE float numerics. -/
def isFloatLit (s : GoStr) : Bool :=
  let body := match s with
    | '-' :: rest => rest
    | '+' :: rest => rest
    | _ => s
  match splitAtFirst '.' body with
  | none => (digitsVal body).isSome
  | some (l, r) => (digitsVal l).isSome && (digitsVal r).isSome

/-- One element of the `json.Unmarshal` of a string into `[]int`:
trimmed decimal integer. -/
def parseJsonInt (s : GoStr) : Option Int :=
  match trimSpace s with
  | '-' :: rest => (digitsVal rest).map (fun n => -(n : Int))
  | other => (digitsVal other).map (fun n => (n : Int))

/-- Split on commas (top level; the arrays here hold only integers). -/
def splitCommas : GoStr → List GoStr
  | [] => [[]]
  | c :: rest =>
    if c = ',' then [] :: splitCommas rest
    else match splitCommas rest with
      | [] => [[c]]
      | l :: ls => (c :: l) :: ls

/-- `json.Unmarshal([]byte(s), &intSlice)`: a JSON array of integers.
A stand-in for the standard-library decoder on the `[]int` shape the
source feeds it; no theorem depends on its internals. -/
def parseIntArray (s : GoStr) : Option (List Int) :=
  match trimSpace s with
  | '[' :: rest =>
    match rest.reverse with
    | ']' :: revBody =>
      let body := trimSpace revBody.reverse
      if body = [] then some []
      else (splitCommas body).mapM parseJsonInt
    | _ => none
  | _ => none

/-- The Go kinds a config field can have, with its current value.
`vInt`/`vUInt` carry the bit width of the concrete Go type.
`vSliceOther` is a slice whose element kind is not `int` (the element
kind name and raw elements are carried only for identity).  `vMap` is
a representative field kind outside the supported set. -/
inductive GoValue where
  | vString (s : GoStr)
  | vInt (bits : Nat) (v : Int)
  | vUInt (bits : Nat) (v : Nat)
  | vBool (b : Bool)
  | vFloat (bits : Nat) (lit : GoStr)
  | vSliceInt (xs : List Int)
  | vSliceOther (elemKind : GoStr) (raw : List GoStr)
  | vMap (entries : List (GoStr × GoStr))
  deriving Repr, DecidableEq

/-- Errors surfaced by the library (each constructor is one `fmt.Errorf`
site of `config.go`, carrying the same identifying data). -/
inductive GoErr where
  | parseErr (parseCtx : GoStr) (target : GoStr)
  | unsupportedSlice (unsupportedCtx : GoStr)
  | unsupportedKind (unsupportedCtx : GoStr)
  | notRegistered
  | fileReadErr (path : GoStr)
  | fileParseErr (path : GoStr)
  | discoveredParseErr (path : GoStr)
  | dotenvLoadErr (path : GoStr)
  | envStageErr (e : GoErr)
  | flagStageErr (e : GoErr)
  | defaultStageErr (e : GoErr)
  | configNotFound (f : GoStr)
  | envFileNotFound (f : GoStr)
  deriving Repr, DecidableEq

/-- `setFieldFromString` (config.go:714): converts `s` to the kind of
the field and returns the updated field value.  `ignoreNonIntSlice`
mirrors the lenient policy used by the defaults and env stages; the
flag stage passes `false`. -/
def setFieldFromString (fieldVal : GoValue) (s : GoStr)
    (parseCtx unsupportedCtx : GoStr) (ignoreNonIntSlice : Bool) :
    Except GoErr GoValue :=
  match fieldVal with
  | .vString _ => .ok (.vString s)
  | .vInt bits _ =>
    match parseIntLit s bits with
    | none => .error (.parseErr parseCtx "int".toList)
    | some iv => .ok (.vInt bits iv)
  | .vUInt bits _ =>
    match parseUintLit s bits with
    | none => .error (.parseErr parseCtx "uint".toList)
    | some uv => .ok (.vUInt bits uv)
  | .vBool _ =>
    match parseBoolLit s with
    | none => .error (.parseErr parseCtx "bool".toList)
    | some bv => .ok (.vBool bv)
  | .vFloat bits _ =>
    if isFloatLit s then .ok (.vFloat bits s)
    else .error (.parseErr parseCtx "float".toList)
  | .vSliceInt _ =>
    match parseIntArray s with
    | none => .error (.parseErr parseCtx "[]int".toList)
    | some xs => .ok (.vSliceInt xs)
  | .vSliceOther ek raw =>
    if ignoreNonIntSlice then .ok (.vSliceOther ek raw)
    else .error (.unsupportedSlice unsupportedCtx)
  | .vMap _ => .error (.unsupportedKind unsupportedCtx)

/-! ## Go maps and the process environment

A Go `map[string]string` (and the process environment table) is
modelled as an association list with at most one entry per key;
`mapInsert` replaces in place, `mapLookup` finds the entry.  The flag
map of the source is `map[string]*string`; both producers of that map
(`parseArgsToFlagMap` and `flagSet.Visit`) only ever store non-nil
pointers, so it is modelled as a plain value map. -/

/-- Map/env assignment `m[k] = v` (`os.Setenv`). -/
def mapInsert (k v : GoStr) : List (GoStr × GoStr) → List (GoStr × GoStr)
  | [] => [(k, v)]
  | (k', v') :: rest =>
    if k' = k then (k, v) :: rest else (k', v') :: mapInsert k v rest

/-- Map/env lookup `m[k]` (`os.LookupEnv`: `none` means absent). -/
def mapLookup (k : GoStr) : List (GoStr × GoStr) → Option GoStr
  | [] => none
  | (k', v') :: rest => if k' = k then some v' else mapLookup k rest

/-- The process environment. -/
abbrev EnvMap := List (GoStr × GoStr)

/-- `os.Getenv`: the empty string when the variable is absent. -/
def getenv (env : EnvMap) (k : GoStr) : GoStr := (mapLookup k env).getD []

/-! ## The config record, flat model

The claims about the staged pipeline are per-field, and
`findFieldsWithTag` flattens the (acyclic) record tree into a list of
settable field handles in declaration order.  The pipeline model
therefore works on the flattened record directly: a list of fields,
each carrying its JSON name, current value and tag bundle.  (The
tree-shaped allocation behaviour of `findFieldsWithTag` is modelled
separately below for claim C8.) -/

structure CField where
  name : GoStr
  value : GoValue
  tags : List (GoStr × GoStr)
  deriving Repr, DecidableEq

/-- `reflect.StructTag.Get`: the empty string when the tag is absent. -/
def tagGet (tag : GoStr) (f : CField) : GoStr := (mapLookup tag f.tags).getD []

/-- The fields `findFieldsWithTag tag` would return on a flat record:
those whose tag value is nonempty, in declaration order
(config.go:467). -/
def fieldsWithTag (tag : GoStr) (cfg : List CField) : List CField :=
  cfg.filter (fun f => tagGet tag f ≠ [])

/-- The body of the `setDefaultValues` loop (config.go:509-521) for
one field: a field carrying a nonempty `default` tag is set from the
tag text with the lenient policy; other fields are untouched. -/
def setDefaultField (f : CField) : Except GoErr CField :=
  if tagGet "default".toList f = [] then .ok f
  else
    match setFieldFromString f.value (tagGet "default".toList f)
        ("default value".toList) ("default value".toList) true with
    | .error e => .error e
    | .ok v' => .ok { f with value := v' }

/-- `setDefaultValues` (config.go:508) fused with the
`findFieldsWithTag "default"` selection. -/
def setDefaultValues : List CField → Except GoErr (List CField)
  | [] => .ok []
  | f :: rest =>
    match setDefaultField f with
    | .error e => .error e
    | .ok f' =>
      match setDefaultValues rest with
      | .error e => .error e
      | .ok rest' => .ok (f' :: rest')

/-- The body of the `processEnvironment` loop (config.go:488-503) for
one field: a field carrying a nonempty `env` tag is read from the
environment; an empty value (unset, or set to the empty string) is
skipped and the field keeps its prior value. -/
def processEnvField (env : EnvMap) (f : CField) : Except GoErr CField :=
  if tagGet "env".toList f = [] then .ok f
  else if getenv env (tagGet "env".toList f) = [] then .ok f
  else
    match setFieldFromString f.value (getenv env (tagGet "env".toList f))
        ("env var".toList ++ tagGet "env".toList f) ("env var".toList) true with
    | .error e => .error e
    | .ok v' => .ok { f with value := v' }

/-- `processEnvironment` (config.go:487) fused with the
`findFieldsWithTag "env"` selection. -/
def processEnvironment (env : EnvMap) : List CField → Except GoErr (List CField)
  | [] => .ok []
  | f :: rest =>
    match processEnvField env f with
    | .error e => .error e
    | .ok f' =>
      match processEnvironment env rest with
      | .error e => .error e
      | .ok rest' => .ok (f' :: rest')

/-- The flag-map lookup of `assignFlagsFromMap` for one logical name:
the bare name first, then — only when a prefix is configured — the
prefixed form (config.go:628-639). -/
def flagValueFor (values : List (GoStr × GoStr)) (pfx name : GoStr) :
    Option GoStr :=
  match mapLookup name values with
  | some v => some v
  | none => if pfx ≠ [] then mapLookup (pfx ++ name) values else none

/-- The body of the `assignFlagsFromMap` loop (config.go:625-653) for
one field: a field with a nonempty `flag` tag is looked up via
`flagValueFor`; the strict conversion policy is used. -/
def assignFlagField (values : List (GoStr × GoStr)) (pfx : GoStr)
    (f : CField) : Except GoErr CField :=
  if tagGet "flag".toList f = [] then .ok f
  else
    match flagValueFor values pfx (tagGet "flag".toList f) with
    | none => .ok f
    | some val =>
      match setFieldFromString f.value val
          ("flag --".toList ++ tagGet "flag".toList f)
          ("flag --".toList ++ tagGet "flag".toList f) false with
      | .error e => .error e
      | .ok v' => .ok { f with value := v' }

/-- `assignFlagsFromMap` (config.go:624) fused with the
`findFieldsWithTag "flag"` selection. -/
def assignFlagsFromMap (values : List (GoStr × GoStr)) (pfx : GoStr) :
    List CField → Except GoErr (List CField)
  | [] => .ok []
  | f :: rest =>
    match assignFlagField values pfx f with
    | .error e => .error e
    | .ok f' =>
      match assignFlagsFromMap values pfx rest with
      | .error e => .error e
      | .ok rest' => .ok (f' :: rest')

/-! ## Fallback argv parsing -/

/-- Number of leading dashes of a token. -/
def countDashes : GoStr → Nat
  | [] => 0
  | c :: rest => if c = '-' then countDashes rest + 1 else 0

/-- Strip all leading dashes (the `j` loop of config.go:674). -/
def stripDashes : GoStr → GoStr
  | [] => []
  | c :: rest => if c = '-' then stripDashes rest else c :: rest

/-- Register a parsed key/value pair: store under the key, and when a
prefix is configured and the key carries it, also under the
de-prefixed key (config.go:698-704). -/
def registerFlag (key : GoStr) (v : GoStr) (pfx : GoStr)
    (values : List (GoStr × GoStr)) : List (GoStr × GoStr) :=
  let values' := mapInsert key v values
  if pfx ≠ [] ∧ startsWithL key pfx then
    let k := trimPfxL key pfx
    if k ≠ [] then mapInsert k v values' else values'
  else values'

/-- The scan loop of `parseArgsToFlagMap` (config.go:665-705),
threading the map being built. -/
def parseArgsAux (pfx : GoStr) : List GoStr → List (GoStr × GoStr) →
    List (GoStr × GoStr)
  | [], values => values
  | [a], values =>
    if ¬ (a.length ≥ 2 ∧ a.head? = some '-') then values
    else
      let keyAndMaybe := stripDashes a
      if keyAndMaybe = [] then values
      else
        match splitAtFirst '=' keyAndMaybe with
        | some (key, v) => registerFlag key v pfx values
        | none => registerFlag keyAndMaybe "true".toList pfx values
  | a :: b :: rest, values =>
    if ¬ (a.length ≥ 2 ∧ a.head? = some '-') then parseArgsAux pfx (b :: rest) values
    else
      let keyAndMaybe := stripDashes a
      if keyAndMaybe = [] then parseArgsAux pfx (b :: rest) values
      else
        match splitAtFirst '=' keyAndMaybe with
        | some (key, v) => parseArgsAux pfx (b :: rest) (registerFlag key v pfx values)
        | none =>
          if b.length > 0 ∧ b.head? = some '-' then
            parseArgsAux pfx (b :: rest) (registerFlag keyAndMaybe "true".toList pfx values)
          else
            parseArgsAux pfx rest (registerFlag keyAndMaybe b pfx values)

/-- `parseArgsToFlagMap` (config.go:660). -/
def parseArgsToFlagMap (args : List GoStr) (pfx : GoStr) : List (GoStr × GoStr) :=
  parseArgsAux pfx args []

/-! ## Dotenv loading -/

/-- `unescapeDoubleQuoted` (config.go:584): minimal escape set inside
a double-quoted .env value. -/
def unescapeDoubleQuoted : GoStr → GoStr
  | [] => []
  | '\\' :: c :: rest =>
    (match c with
     | 'n' => '\n'
     | 'r' => '\r'
     | 't' => '\t'
     | '"' => '"'
     | '\\' => '\\'
     | '$' => '$'
     | other => other) :: unescapeDoubleQuoted rest
  | c :: rest => c :: unescapeDoubleQuoted rest

/-- Quote handling and inline-comment stripping for a raw .env value
(config.go:557-573). -/
def dotenvValue (val : GoStr) : GoStr :=
  if val.length ≥ 2 ∧
      ((val.head? = some '"' ∧ val.getLast? = some '"') ∨
       (val.head? = some '\'' ∧ val.getLast? = some '\'')) then
    let inner := (val.drop 1).dropLast
    if val.head? = some '"' then unescapeDoubleQuoted inner else inner
  else
    match splitAtFirst '#' val with
    | none => val
    | some (before, _) =>
      let trimmed := trimRightWs before
      if trimmed.length < before.length then trimSpace trimmed else val

/-- One iteration of the `loadDotEnv` line loop (config.go:537-573):
`none` when the line is skipped, otherwise the key/value pair that
will be offered to the environment. -/
def parseEnvLine (raw : GoStr) : Option (GoStr × GoStr) :=
  let line := trimSpace raw
  if line = [] ∨ line.head? = some '#' then none
  else
    let line :=
      if startsWithL line "export ".toList then
        trimSpace (trimPfxL line "export ".toList)
      else line
    match splitAtFirst '=' line with
    | none => none
    | some (before, after) =>
      if before = [] then none   -- eq <= 0: '=' first, or no key
      else
        let key := trimSpace before
        let val := trimSpace after
        if key = [] then none
        else some (key, dotenvValue val)

/-- The line loop of `loadDotEnv` (config.go:536-579): each parsed key
is written with `os.Setenv` only when `os.LookupEnv` reports it
absent. -/
def loadDotEnvLines : List GoStr → EnvMap → EnvMap
  | [], env => env
  | raw :: rest, env =>
    match parseEnvLine raw with
    | none => loadDotEnvLines rest env
    | some (key, val) =>
      if (mapLookup key env).isSome then loadDotEnvLines rest env
      else loadDotEnvLines rest (mapInsert key val env)

/-! ## File system and path model

Files are an association list from path to entry; an entry is either
readable content or a present-but-unreadable marker (so `os.Stat`
succeeds but `os.ReadFile` fails).  `filepath.Dir` / `filepath.Join`
are standard-library collaborators, modelled for slash-separated
paths. -/

inductive FileEntry where
  | readable (content : GoStr)
  | unreadable
  deriving Repr, DecidableEq

structure Sys where
  files : List (GoStr × FileEntry)
  env : EnvMap
  cwd : GoStr
  osArgs : List GoStr
  deriving Repr

/-- Association-list lookup over the file table. -/
def lookupFile (path : GoStr) : List (GoStr × FileEntry) → Option FileEntry
  | [] => none
  | (p, e) :: rest => if p = path then some e else lookupFile path rest

/-- `os.Stat` existence check. -/
def statPath (sys : Sys) (path : GoStr) : Bool := (lookupFile path sys.files).isSome

/-- `os.ReadFile`. -/
def readFile (sys : Sys) (path : GoStr) : Except GoErr GoStr :=
  match lookupFile path sys.files with
  | some (.readable content) => .ok content
  | some .unreadable => .error (.fileReadErr path)
  | none => .error (.fileReadErr path)

/-- `filepath.Dir` for slash-separated paths: everything before the
last separator; `"."` when there is none, `"/"` at the root. -/
def dirPath (p : GoStr) : GoStr :=
  match splitAtFirst '/' p.reverse with
  | none => ".".toList
  | some (_, revInit) =>
    if revInit = [] then "/".toList else revInit.reverse

/-- `filepath.Join dir file` for the nonempty components used here. -/
def joinPath (dir file : GoStr) : GoStr :=
  if dir = "/".toList then '/' :: file else dir ++ '/' :: file

/-- `searchUpwards` (config.go:387): walk upward from `path` for at
most `maxLevels = 10` iterations, returning the first directory level
at which `cfgFile` exists, stopping early at the filesystem root; every
failure returns an error wrapping `ErrConfigNotFound`.  The `stat`
check and the `dirOf`/`join` path operations are the collaborators. -/
def searchUpwardsAux (stat : GoStr → Bool) (dirOf : GoStr → GoStr)
    (join : GoStr → GoStr → GoStr) (cfgFile : GoStr) :
    Nat → GoStr → Except GoErr GoStr
  | 0, _ => .error (.configNotFound cfgFile)
  | n + 1, path =>
    if stat (join path cfgFile) then .ok (join path cfgFile)
    else if path = "/".toList ∨ path = ".".toList then
      .error (.configNotFound cfgFile)
    else
      let path' := dirOf path
      if path' = [] then .error (.configNotFound cfgFile)
      else searchUpwardsAux stat dirOf join cfgFile n path'

def searchUpwards (stat : GoStr → Bool) (dirOf : GoStr → GoStr)
    (join : GoStr → GoStr → GoStr) (path cfgFile : GoStr) : Except GoErr GoStr :=
  searchUpwardsAux stat dirOf join cfgFile 10 path

/-- `LocateFromWorkingDirUp` (config.go:378), over the modelled file
system. -/
def LocateFromWorkingDirUp (sys : Sys) (filename : GoStr) : Except GoErr GoStr :=
  searchUpwards (statPath sys) dirPath joinPath sys.cwd filename

/-! ## The orchestrator -/

/-- `AntConfig` (config.go:26).  `flagSet`, when bound, is modelled by
the map of explicitly-set flag values that `flagSet.Visit` would
produce.  `cfgRef` holds the registered (flat-model) record. -/
structure AntConfig where
  envPath : GoStr := []
  configPath : GoStr := []
  flagArgs : List GoStr := []
  flagPfx : GoStr := []
  flagSet : Option (List (GoStr × GoStr)) := none
  cfgRef : Option (List CField) := none
  deriving Repr

/-- `SetEnvPath` (config.go:231): stores the path, then validates
existence. -/
def SetEnvPath (c : AntConfig) (sys : Sys) (path : GoStr) :
    AntConfig × Option GoErr :=
  let c' := { c with envPath := path }
  if ¬ statPath sys path then (c', some (.envFileNotFound path))
  else (c', none)

/-- `SetConfigPath` (config.go:242): stores the path, then validates
existence. -/
def SetConfigPath (c : AntConfig) (sys : Sys) (path : GoStr) :
    AntConfig × Option GoErr :=
  let c' := { c with configPath := path }
  if ¬ statPath sys path then (c', some (.configNotFound path))
  else (c', none)

/-- A decoded JSON object, restricted to the flat-record shape: field
name to decoded value. -/
abbrev JsonObj := List (GoStr × GoValue)

/-- The merge semantics of `json.Unmarshal` over an existing record:
keys present in the object overwrite the field, absent keys leave the
prior value untouched. -/
def mergeDecoded (obj : JsonObj) (cfg : List CField) : List CField :=
  cfg.map (fun f =>
    match obj.lookup f.name with
    | some v => { f with value := v }
    | none => f)

/-- The config-file stage of `WriteConfigValues` (config.go:279-303).
`toJSON` models the JSONC normalizer `ToJSON` and `decode` models
`json.Unmarshal` (both collaborators).  With an explicit path, read
and decode failures are fatal.  Otherwise the candidates
`config.jsonc` then `config.json` are probed upward from the working
directory; the loop breaks at the first candidate that is located,
a read failure of the located file is swallowed, but a decode failure
is fatal. -/
def fileMergeCandidates (sys : Sys) (toJSON : GoStr → GoStr)
    (decode : GoStr → Option JsonObj) (cfg : List CField) :
    List GoStr → Except GoErr (List CField)
  | [] => .ok cfg
  | name :: rest =>
    match LocateFromWorkingDirUp sys name with
    | .ok path =>
      if path ≠ [] then
        match readFile sys path with
        | .error _ => .ok cfg          -- rerr != nil: swallowed, then break
        | .ok data =>
          match decode (toJSON data) with
          | none => .error (.discoveredParseErr path)
          | some obj => .ok (mergeDecoded obj cfg)
      else fileMergeCandidates sys toJSON decode cfg rest
    | .error _ => fileMergeCandidates sys toJSON decode cfg rest

def fileMergeStage (a : AntConfig) (sys : Sys) (toJSON : GoStr → GoStr)
    (decode : GoStr → Option JsonObj) (cfg : List CField) :
    Except GoErr (List CField) :=
  if a.configPath ≠ [] then
    match readFile sys a.configPath with
    | .error _ => .error (.fileReadErr a.configPath)
    | .ok data =>
      match decode (toJSON data) with
      | none => .error (.fileParseErr a.configPath)
      | some obj => .ok (mergeDecoded obj cfg)
  else
    fileMergeCandidates sys toJSON decode cfg
      ["config.jsonc".toList, "config.json".toList]

/-- `loadDotEnv` (config.go:530): read the file, then run the line
loop over the environment. -/
def loadDotEnv (sys : Sys) (path : GoStr) : Except GoErr EnvMap :=
  match readFile sys path with
  | .error e => .error e
  | .ok data => .ok (loadDotEnvLines (splitLines data) sys.env)

/-- The dotenv stage of `WriteConfigValues` (config.go:309-322): an
explicit path is loaded fatally on read error; otherwise `.env` is
probed in the working directory only, and loaded (fatally on read
error) when present. -/
def dotenvStage (a : AntConfig) (sys : Sys) : Except GoErr EnvMap :=
  if a.envPath ≠ [] then
    match loadDotEnv sys a.envPath with
    | .error _ => .error (.dotenvLoadErr a.envPath)
    | .ok env' => .ok env'
  else
    let candidate := joinPath sys.cwd ".env".toList
    if statPath sys candidate then
      match loadDotEnv sys candidate with
      | .error _ => .error (.dotenvLoadErr candidate)
      | .ok env' => .ok env'
    else .ok sys.env

/-- `WriteConfigValues` (config.go:259): the five stages in order —
defaults, config file, dotenv, OS environment, flags.  Returns the
resolved record together with the (possibly dotenv-extended) process
environment. -/
def WriteConfigValues (a : AntConfig) (sys : Sys) (toJSON : GoStr → GoStr)
    (decode : GoStr → Option JsonObj) :
    Except GoErr (List CField × EnvMap) :=
  match a.cfgRef with
  | none => .error .notRegistered
  | some cfg0 =>
    match setDefaultValues cfg0 with
    | .error e => .error (.defaultStageErr e)
    | .ok cfg1 =>
      match fileMergeStage a sys toJSON decode cfg1 with
      | .error e => .error e
      | .ok cfg2 =>
        match dotenvStage a sys with
        | .error e => .error e
        | .ok env' =>
          let envStep : Except GoErr (List CField) :=
            if (fieldsWithTag "env".toList cfg2).length > 0 then
              match processEnvironment env' cfg2 with
              | .error e => .error (.envStageErr e)
              | .ok c => .ok c
            else .ok cfg2
          match envStep with
          | .error e => .error e
          | .ok cfg3 =>
            if (fieldsWithTag "flag".toList cfg3).length > 0 then
              let values :=
                match a.flagSet with
                | some visited => visited
                | none =>
                  let args :=
                    if a.flagArgs.length = 0 ∧ sys.osArgs.length > 1 then
                      sys.osArgs.drop 1
                    else a.flagArgs
                  parseArgsToFlagMap args a.flagPfx
              match assignFlagsFromMap values a.flagPfx cfg3 with
              | .error e => .error (.flagStageErr e)
              | .ok cfg4 => .ok (cfg4, env')
            else .ok (cfg3, env')

/-! ## The record tree and `findFieldsWithTag` (config.go:416)

`findFieldsWithTag` walks the record tree: it skips unexported
(non-settable) fields, recurses into struct-typed fields, recurses
into pointer-to-struct fields after allocating a fresh zero value when
the pointer is nil, and after recursion collects the field itself when
it carries the requested tag.  The tree is modelled as an inductive
whose `cons*` constructors enumerate the field shapes; `RecTy` is the
`reflect.Type` needed to build the `reflect.New` zero value. -/

inductive RecTy where
  | nil
  | consPrim (settable : Bool) (tags : List (GoStr × GoStr)) (zero : GoValue) (rest : RecTy)
  | consStrct (settable : Bool) (tags : List (GoStr × GoStr)) (sub : RecTy) (rest : RecTy)
  | consPtr (settable : Bool) (tags : List (GoStr × GoStr)) (sub : RecTy) (rest : RecTy)
  deriving Repr, DecidableEq

inductive RecVal where
  | nil
  | consPrim (settable : Bool) (tags : List (GoStr × GoStr)) (v : GoValue) (rest : RecVal)
  | consStrct (settable : Bool) (tags : List (GoStr × GoStr)) (sub : RecVal) (rest : RecVal)
  | consPtrNil (settable : Bool) (tags : List (GoStr × GoStr)) (ty : RecTy) (rest : RecVal)
  | consPtrSome (settable : Bool) (tags : List (GoStr × GoStr)) (sub : RecVal) (rest : RecVal)
  deriving Repr, DecidableEq

/-- `reflect.New(ty).Elem()`: the zero value of a record type.  Its
pointer fields are nil. -/
def zeroRec : RecTy → RecVal
  | .nil => .nil
  | .consPrim s tags z rest => .consPrim s tags z (zeroRec rest)
  | .consStrct s tags sub rest => .consStrct s tags (zeroRec sub) (zeroRec rest)
  | .consPtr s tags sub rest => .consPtrNil s tags sub (zeroRec rest)

/-- Weight of the zero record of a type (used as the termination
measure of the discovery walk). -/
def tyWeight : RecTy → Nat
  | .nil => 0
  | .consPrim _ _ _ rest => 1 + tyWeight rest
  | .consStrct _ _ sub rest => 1 + tyWeight sub + tyWeight rest
  | .consPtr _ _ sub rest => 1 + tyWeight sub + tyWeight rest

def valWeight : RecVal → Nat
  | .nil => 0
  | .consPrim _ _ _ rest => 1 + valWeight rest
  | .consStrct _ _ sub rest => 1 + valWeight sub + valWeight rest
  | .consPtrNil _ _ ty rest => 1 + tyWeight ty + valWeight rest
  | .consPtrSome _ _ sub rest => 1 + valWeight sub + valWeight rest

theorem valWeight_zeroRec (t : RecTy) : valWeight (zeroRec t) = tyWeight t := by
  induction t with
  | nil => rfl
  | consPrim s tags z rest ih => simp [zeroRec, valWeight, tyWeight, ih]
  | consStrct s tags sub rest ih1 ih2 => simp [zeroRec, valWeight, tyWeight, ih1, ih2]
  | consPtr s tags sub rest ih1 ih2 => simp [zeroRec, valWeight, tyWeight, ih2]

/-- A field handle collected by the discovery walk: its tag bundle and
the value of the requested tag.  (The Go function returns a settable
`reflect.Value` reference; a reference cannot escape a functional
model, so the handle carries the identifying metadata and the walk
returns the updated record alongside.) -/
structure FoundField where
  tagvalue : GoStr
  tags : List (GoStr × GoStr)
  deriving Repr, DecidableEq

/-- The handle list contributed by a field's own tag (the tag
processing of config.go:467-479). -/
def ownHandle (tagname : GoStr) (tags : List (GoStr × GoStr)) : List FoundField :=
  if (mapLookup tagname tags).getD [] ≠ [] then
    [⟨(mapLookup tagname tags).getD [], tags⟩]
  else []

/-- `findFieldsWithTag` (config.go:416) on the record tree: returns
the collected handles in declaration order (depth-first, recursion
before the field's own tag) together with the record as mutated by the
nil-pointer allocations (config.go:455-456: a nil pointer to a struct
is set to a fresh zero value before the recursion descends into it).
Unexported (non-settable) fields are skipped entirely. -/
def findFieldsWithTag (tagname : GoStr) : RecVal → List FoundField × RecVal
  | .nil => ([], .nil)
  | .consPrim s tags v rest =>
    if ¬ s then
      ((findFieldsWithTag tagname rest).1,
       .consPrim s tags v (findFieldsWithTag tagname rest).2)
    else
      (ownHandle tagname tags ++ (findFieldsWithTag tagname rest).1,
       .consPrim s tags v (findFieldsWithTag tagname rest).2)
  | .consStrct s tags sub rest =>
    if ¬ s then
      ((findFieldsWithTag tagname rest).1,
       .consStrct s tags sub (findFieldsWithTag tagname rest).2)
    else
      ((findFieldsWithTag tagname sub).1 ++ ownHandle tagname tags
         ++ (findFieldsWithTag tagname rest).1,
       .consStrct s tags (findFieldsWithTag tagname sub).2
         (findFieldsWithTag tagname rest).2)
  | .consPtrNil s tags ty rest =>
    if ¬ s then
      ((findFieldsWithTag tagname rest).1,
       .consPtrNil s tags ty (findFieldsWithTag tagname rest).2)
    else
      ((findFieldsWithTag tagname (zeroRec ty)).1 ++ ownHandle tagname tags
         ++ (findFieldsWithTag tagname rest).1,
       .consPtrSome s tags (findFieldsWithTag tagname (zeroRec ty)).2
         (findFieldsWithTag tagname rest).2)
  | .consPtrSome s tags sub rest =>
    if ¬ s then
      ((findFieldsWithTag tagname rest).1,
       .consPtrSome s tags sub (findFieldsWithTag tagname rest).2)
    else
      ((findFieldsWithTag tagname sub).1 ++ ownHandle tagname tags
         ++ (findFieldsWithTag tagname rest).1,
       .consPtrSome s tags (findFieldsWithTag tagname sub).2
         (findFieldsWithTag tagname rest).2)
termination_by r => valWeight r
decreasing_by all_goals simp_arith [valWeight, valWeight_zeroRec]

/-! ## Helper lemmas on the map/environment model -/

theorem mapLookup_mapInsert_self (k v : GoStr) (m : List (GoStr × GoStr)) :
    mapLookup k (mapInsert k v m) = some v := by
  induction m with
  | nil => simp [mapInsert, mapLookup]
  | cons hd tl ih =>
    obtain ⟨k', v'⟩ := hd
    by_cases h : k' = k
    · simp [mapInsert, mapLookup, h]
    · simp [mapInsert, mapLookup, h, ih]

theorem mapLookup_mapInsert_ne (k k' v : GoStr) (m : List (GoStr × GoStr))
    (h : k' ≠ k) : mapLookup k (mapInsert k' v m) = mapLookup k m := by
  induction m with
  | nil => simp [mapInsert, mapLookup, h]
  | cons hd tl ih =>
    obtain ⟨k'', v''⟩ := hd
    by_cases h2 : k'' = k'
    · subst h2
      simp [mapInsert, mapLookup, h, Ne.symm h]
    · by_cases h3 : k'' = k
      · subst h3
        simp [mapInsert, mapLookup, h2]
      · simp [mapInsert, mapLookup, h2, h3, ih]

/-! ## C6: converter policy on unsupported kinds -/

/-- **C6.** `setFieldFromString` on a slice whose element type is not
`int`: the lenient policy (defaults/env stages) succeeds without
touching the field, the strict policy (flags stage) errors; a field
kind outside the supported set (here a map) errors under both
policies. -/
theorem setFieldFromString_unsupported_policy
    (ek s parseCtx unsupportedCtx : GoStr) (raw : List GoStr)
    (entries : List (GoStr × GoStr)) (pol : Bool) :
    setFieldFromString (.vSliceOther ek raw) s parseCtx unsupportedCtx true
      = .ok (.vSliceOther ek raw) ∧
    setFieldFromString (.vSliceOther ek raw) s parseCtx unsupportedCtx false
      = .error (.unsupportedSlice unsupportedCtx) ∧
    setFieldFromString (.vMap entries) s parseCtx unsupportedCtx pol
      = .error (.unsupportedKind unsupportedCtx) :=
  ⟨rfl, rfl, rfl⟩

/-! ## C2: empty environment values never overwrite -/

/-- The per-field environment step keeps a field whose env value is
empty. -/
theorem processEnvField_empty (env : EnvMap) (f : CField)
    (hempty : getenv env (tagGet "env".toList f) = []) :
    processEnvField env f = .ok f := by
  unfold processEnvField
  by_cases h1 : tagGet "env".toList f = []
  · rw [if_pos h1]
  · rw [if_neg h1, if_pos hempty]

/-- **C2.** For a field whose `env`-tagged variable evaluates to the
empty string (unset, or explicitly set to empty), a successful
`processEnvironment` pass leaves that field exactly at its prior
value. -/
theorem processEnvironment_empty_keeps_field (env : EnvMap)
    (cfg cfg' : List CField) (i : Nat) (hi : i < cfg.length)
    (hempty : getenv env (tagGet "env".toList (cfg.get ⟨i, hi⟩)) = [])
    (hok : processEnvironment env cfg = .ok cfg') :
    ∃ hi' : i < cfg'.length, cfg'.get ⟨i, hi'⟩ = cfg.get ⟨i, hi⟩ := by
  induction cfg generalizing cfg' i with
  | nil => exact absurd hi (by simp)
  | cons f rest ih =>
    simp only [processEnvironment] at hok
    cases hs : processEnvField env f with
    | error e => rw [hs] at hok; exact absurd hok (by simp)
    | ok f' =>
      rw [hs] at hok
      cases hr : processEnvironment env rest with
      | error e => rw [hr] at hok; exact absurd hok (by simp)
      | ok rest' =>
        rw [hr] at hok
        simp at hok
        cases i with
        | zero =>
          have hf : f' = f := by
            have := processEnvField_empty env f (by simpa using hempty)
            rw [this] at hs
            exact (Except.ok.injEq _ _ ▸ hs.symm :)
          subst hok
          exact ⟨by simp, by simp [hf]⟩
        | succ j =>
          have hj : j < rest.length := by simpa using hi
          have hemp' : getenv env (tagGet "env".toList (rest.get ⟨j, hj⟩)) = [] := by
            simpa using hempty
          obtain ⟨hj', hgj⟩ := ih rest' j hj hemp' hr
          subst hok
          exact ⟨by simpa using Nat.succ_lt_succ hj', by simpa using hgj⟩

/-- Witness for C2 at a concrete input: a field tagged `env:"EV"` with
`EV` absent from the environment keeps its default-layer value. -/
theorem processEnvironment_empty_keeps_field_witness :
    ∃ hi' : 0 < ([⟨"A".toList, .vString "prior".toList,
        [("env".toList, "EV".toList)]⟩] : List CField).length,
      (([⟨"A".toList, .vString "prior".toList,
        [("env".toList, "EV".toList)]⟩] : List CField).get ⟨0, hi'⟩) =
      (([⟨"A".toList, .vString "prior".toList,
        [("env".toList, "EV".toList)]⟩] : List CField).get ⟨0, by decide⟩) := by
  exact processEnvironment_empty_keeps_field [] _ _ 0 (by decide) (by decide) rfl

/-! ## C3: dotenv never overrides a present environment key -/

/-- **C3.** `loadDotEnv`'s line loop writes a parsed key only when the
key is absent from the process environment: any key that is present
before the load (even bound to the empty string) still has its prior
value afterwards. -/
theorem loadDotEnvLines_preserves_present (lines : List GoStr)
    (env : EnvMap) (k v : GoStr) (hpresent : mapLookup k env = some v) :
    mapLookup k (loadDotEnvLines lines env) = some v := by
  induction lines generalizing env with
  | nil => simpa [loadDotEnvLines] using hpresent
  | cons raw rest ih =>
    simp only [loadDotEnvLines]
    rcases hp : parseEnvLine raw with _ | ⟨key, val⟩
    · exact ih env hpresent
    · by_cases hs : (mapLookup key env).isSome
      · simp [hs]
        exact ih env hpresent
      · simp [hs]
        have hne : key ≠ k := by
          intro heq
          rw [heq, hpresent] at hs
          simp at hs
        exact ih _ (by rw [mapLookup_mapInsert_ne k key val env hne]; exact hpresent)

/-- Witness for C3 at a concrete input: the key `A` is set to `os` in
the environment; a dotenv file line `A=1` does not override it (and
this also holds when the prior value is the empty string). -/
theorem loadDotEnvLines_preserves_present_witness :
    mapLookup "A".toList (loadDotEnvLines ["A=1".toList]
      [("A".toList, "os".toList)]) = some "os".toList ∧
    mapLookup "B".toList (loadDotEnvLines ["B=2".toList]
      [("B".toList, [])]) = some [] := by
  constructor
  · exact loadDotEnvLines_preserves_present _ _ _ _ rfl
  · exact loadDotEnvLines_preserves_present _ _ _ _ rfl

/-! ## C7: fallback argv tokenization -/

theorem stripDashes_replicate (n : Nat) (s : GoStr) :
    stripDashes (List.replicate n '-' ++ s) = stripDashes s := by
  induction n with
  | zero => simp
  | succ m ih => simpa [stripDashes] using ih

theorem stripDashes_no_dash (s : GoStr) (h : s.head? ≠ some '-') :
    stripDashes s = s := by
  cases s with
  | nil => rfl
  | cons c rest =>
    have : c ≠ '-' := by
      intro hc
      exact h (by simp [hc])
    simp [stripDashes, this]

theorem splitAtFirst_not_mem (c : Char) (s : GoStr) (h : c ∉ s) :
    splitAtFirst c s = none := by
  induction s with
  | nil => rfl
  | cons x xs ih =>
    have hx : x ≠ c := fun he => h (he ▸ List.mem_cons_self x xs)
    have hxs : c ∉ xs := fun hm => h (List.mem_cons_of_mem x hm)
    simp [splitAtFirst, hx, ih hxs]

theorem splitAtFirst_append (c : Char) (l r : GoStr) (h : c ∉ l) :
    splitAtFirst c (l ++ c :: r) = some (l, r) := by
  induction l with
  | nil => simp [splitAtFirst]
  | cons x xs ih =>
    have hx : x ≠ c := fun he => h (he ▸ List.mem_cons_self x xs)
    have hxs : c ∉ xs := fun hm => h (List.mem_cons_of_mem x hm)
    simp [splitAtFirst, hx, ih hxs]

/-- Whatever the de-prefixing side entry does, a registered key is
afterwards bound to the registered value. -/
theorem registerFlag_lookup_self (key v pfx : GoStr)
    (m : List (GoStr × GoStr)) :
    mapLookup key (registerFlag key v pfx m) = some v := by
  unfold registerFlag
  by_cases hb : pfx ≠ [] ∧ startsWithL key pfx
  · rw [if_pos hb]
    by_cases hk : trimPfxL key pfx ≠ []
    · rw [if_pos hk]
      by_cases he : trimPfxL key pfx = key
      · rw [he]
        exact mapLookup_mapInsert_self ..
      · rw [mapLookup_mapInsert_ne key _ v _ he]
        exact mapLookup_mapInsert_self ..
    · rw [if_neg hk]
      exact mapLookup_mapInsert_self ..
  · rw [if_neg hb]
    exact mapLookup_mapInsert_self ..

/-- A token that is not flag-shaped (shorter than two characters, or
not starting with `-`) is skipped. -/
theorem parseArgsAux_skip (pfx a : GoStr) (rest : List GoStr)
    (m : List (GoStr × GoStr)) (h : ¬ (a.length ≥ 2 ∧ a.head? = some '-')) :
    parseArgsAux pfx (a :: rest) m = parseArgsAux pfx rest m := by
  cases rest with
  | nil => simp [parseArgsAux, h]
  | cons b rest2 => simp [parseArgsAux, h]

/-- A flag token containing `=` is split at the first `=` and
registered; scanning continues with the rest. -/
theorem parseArgsAux_eq_token (pfx a key v : GoStr) (rest : List GoStr)
    (m : List (GoStr × GoStr)) (h2 : a.length ≥ 2) (hh : a.head? = some '-')
    (hsplit : splitAtFirst '=' (stripDashes a) = some (key, v)) :
    parseArgsAux pfx (a :: rest) m
      = parseArgsAux pfx rest (registerFlag key v pfx m) := by
  have hne : stripDashes a ≠ [] := by
    intro he
    rw [he] at hsplit
    exact absurd hsplit (by simp [splitAtFirst])
  cases rest with
  | nil => simp [parseArgsAux, h2, hh, hne, hsplit]
  | cons b rest2 => simp [parseArgsAux, h2, hh, hne, hsplit]

/-- A flag token without `=`, with no following token: registered as
boolean `true`. -/
theorem parseArgsAux_bare_last (pfx a : GoStr) (m : List (GoStr × GoStr))
    (h2 : a.length ≥ 2) (hh : a.head? = some '-')
    (hne : stripDashes a ≠ [])
    (hsplit : splitAtFirst '=' (stripDashes a) = none) :
    parseArgsAux pfx [a] m
      = registerFlag (stripDashes a) "true".toList pfx m := by
  simp [parseArgsAux, h2, hh, hne, hsplit]

/-- A flag token without `=` followed by a flag-shaped token:
registered as boolean `true`, the follower is scanned on its own. -/
theorem parseArgsAux_bare_before_flag (pfx a b : GoStr) (rest2 : List GoStr)
    (m : List (GoStr × GoStr)) (h2 : a.length ≥ 2) (hh : a.head? = some '-')
    (hne : stripDashes a ≠ [])
    (hsplit : splitAtFirst '=' (stripDashes a) = none)
    (hbf : b.length > 0 ∧ b.head? = some '-') :
    parseArgsAux pfx (a :: b :: rest2) m
      = parseArgsAux pfx (b :: rest2)
          (registerFlag (stripDashes a) "true".toList pfx m) := by
  simp [parseArgsAux, h2, hh, hne, hsplit, hbf]

/-- A flag token without `=` followed by a non-flag token: that token
is consumed as the value. -/
theorem parseArgsAux_bare_consume (pfx a b : GoStr) (rest2 : List GoStr)
    (m : List (GoStr × GoStr)) (h2 : a.length ≥ 2) (hh : a.head? = some '-')
    (hne : stripDashes a ≠ [])
    (hsplit : splitAtFirst '=' (stripDashes a) = none)
    (hbf : ¬ (b.length > 0 ∧ b.head? = some '-')) :
    parseArgsAux pfx (a :: b :: rest2) m
      = parseArgsAux pfx rest2 (registerFlag (stripDashes a) b pfx m) := by
  simp [parseArgsAux, h2, hh, hne, hsplit, hbf]

theorem head?_append_of_ne_nil (l t : GoStr) (h : l ≠ []) :
    (l ++ t).head? = l.head? := by
  cases l with
  | nil => exact absurd rfl h
  | cons c rest => simp

/-- Shape facts for a token `---name…` built from `n ≥ 1` dashes and a
name that is nonempty and does not itself start with a dash. -/
theorem dashToken_shape (n : Nat) (name tail : GoStr) (hn : 1 ≤ n)
    (hne : name ≠ []) (hh : name.head? ≠ some '-') :
    (List.replicate n '-' ++ (name ++ tail)).length ≥ 2 ∧
    (List.replicate n '-' ++ (name ++ tail)).head? = some '-' ∧
    stripDashes (List.replicate n '-' ++ (name ++ tail)) = name ++ tail := by
  refine ⟨?_, ?_, ?_⟩
  · have h1 : 1 ≤ name.length := by
      cases name with
      | nil => exact absurd rfl hne
      | cons c r => simp
    simp only [List.length_append, List.length_replicate]
    omega
  · cases n with
    | zero => omega
    | succ m => simp [List.replicate_succ]
  · rw [stripDashes_replicate, stripDashes_no_dash]
    rw [head?_append_of_ne_nil _ _ hne]
    exact hh

/-- Last occurrence wins: appending `--name=v` as the final argument
makes the final value of `name` equal `v`, whatever came before. -/
theorem parseArgsAux_last_wins (pfx name v : GoStr) (n : Nat) (hn : 1 ≤ n)
    (hne : name ≠ []) (hh : name.head? ≠ some '-') (hmem : '=' ∉ name) :
    ∀ cnt (args : List GoStr) (m : List (GoStr × GoStr)), args.length ≤ cnt →
      mapLookup name (parseArgsAux pfx
        (args ++ [List.replicate n '-' ++ (name ++ '=' :: v)]) m) = some v := by
  obtain ⟨hlen, hhead, hstrip⟩ := dashToken_shape n name ('=' :: v) hn hne hh
  have hsplit : splitAtFirst '=' (stripDashes
      (List.replicate n '-' ++ (name ++ '=' :: v))) = some (name, v) := by
    rw [hstrip]
    exact splitAtFirst_append '=' name v hmem
  intro cnt
  induction cnt with
  | zero =>
    intro args m hcnt
    have : args = [] := List.length_eq_zero.mp (Nat.le_zero.mp hcnt)
    subst this
    rw [List.nil_append,
      parseArgsAux_eq_token pfx _ name v [] m hlen hhead hsplit]
    simp only [parseArgsAux]
    exact registerFlag_lookup_self ..
  | succ k ih =>
    intro args m hcnt
    cases args with
    | nil =>
      rw [List.nil_append,
        parseArgsAux_eq_token pfx _ name v [] m hlen hhead hsplit]
      simp only [parseArgsAux]
      exact registerFlag_lookup_self ..
    | cons a args' =>
      have hlt : args'.length ≤ k := by simpa using hcnt
      rw [List.cons_append]
      by_cases hfl : a.length ≥ 2 ∧ a.head? = some '-'
      · by_cases hke : stripDashes a = []
        · have : parseArgsAux pfx
              (a :: (args' ++ [List.replicate n '-' ++ (name ++ '=' :: v)])) m
              = parseArgsAux pfx
                (args' ++ [List.replicate n '-' ++ (name ++ '=' :: v)]) m := by
            cases he : args' ++ [List.replicate n '-' ++ (name ++ '=' :: v)] with
            | nil => simp [parseArgsAux, hfl, hke]
            | cons b r2 => simp [parseArgsAux, hfl, hke]
          rw [this]
          exact ih args' m hlt
        · cases hsp : splitAtFirst '=' (stripDashes a) with
          | some kv =>
            rw [parseArgsAux_eq_token pfx a kv.1 kv.2 _ m hfl.1 hfl.2 (by
              rw [hsp])]
            exact ih args' _ hlt
          | none =>
            cases args' with
            | nil =>
              rw [List.nil_append,
                parseArgsAux_bare_before_flag pfx a _ [] m hfl.1 hfl.2 hke hsp
                  (by
                    constructor
                    · omega
                    · exact hhead),
                parseArgsAux_eq_token pfx _ name v [] _ hlen hhead hsplit]
              simp only [parseArgsAux]
              exact registerFlag_lookup_self ..
            | cons b args'' =>
              by_cases hbf : b.length > 0 ∧ b.head? = some '-'
              · rw [List.cons_append,
                  parseArgsAux_bare_before_flag pfx a b _ m hfl.1 hfl.2 hke hsp hbf,
                  ← List.cons_append]
                exact ih (b :: args'') _ (by simpa using hcnt)
              · rw [List.cons_append,
                  parseArgsAux_bare_consume pfx a b _ m hfl.1 hfl.2 hke hsp hbf]
                have : args''.length ≤ k := by
                  simp at hcnt
                  omega
                exact ih args'' _ this
      · rw [parseArgsAux_skip pfx a _ m hfl]
        exact ih args' m hlt

/-- **C7.** `parseArgsToFlagMap` tokenization: (1) a token that is not
flag-shaped is skipped; (2) `--name=value` splits at the first `=`;
(3) `--name value` consumes the following non-flag token as the value;
(4) a bare trailing `--name` maps to `"true"`; (5) `--name` followed
by a flag-shaped token maps to `"true"` and the follower is scanned on
its own; (6) when a name occurs more than once, the last occurrence's
value is kept.  Dash counts `n ≥ 1` cover the single- and double-dash
spellings. -/
theorem parseArgsToFlagMap_tokenization (pfx name v w w2 t : GoStr)
    (rest args : List GoStr) (n : Nat) (hn : 1 ≤ n) (hne : name ≠ [])
    (hh : name.head? ≠ some '-') (hmem : '=' ∉ name) :
    (¬ (t.length ≥ 2 ∧ t.head? = some '-') →
      parseArgsToFlagMap (t :: rest) pfx = parseArgsToFlagMap rest pfx) ∧
    mapLookup name (parseArgsToFlagMap
      [List.replicate n '-' ++ (name ++ '=' :: v)] pfx) = some v ∧
    (¬ (w.length > 0 ∧ w.head? = some '-') →
      mapLookup name (parseArgsToFlagMap
        [List.replicate n '-' ++ name, w] pfx) = some w) ∧
    mapLookup name (parseArgsToFlagMap [List.replicate n '-' ++ name] pfx)
      = some "true".toList ∧
    ((w2.length > 0 ∧ w2.head? = some '-') →
      parseArgsToFlagMap ((List.replicate n '-' ++ name) :: w2 :: rest) pfx
        = parseArgsAux pfx (w2 :: rest)
            (registerFlag name "true".toList pfx [])) ∧
    mapLookup name (parseArgsToFlagMap
      (args ++ [List.replicate n '-' ++ (name ++ '=' :: v)]) pfx) = some v := by
  obtain ⟨hlen1, hhead1, hstrip1⟩ := dashToken_shape n name ('=' :: v) hn hne hh
  have hnil : (name : GoStr) ++ [] = name := List.append_nil name
  obtain ⟨hlen0, hhead0, hstrip0⟩ := dashToken_shape n name [] hn hne hh
  rw [hnil] at hstrip0
  have hsplit1 : splitAtFirst '='
      (stripDashes (List.replicate n '-' ++ (name ++ '=' :: v)))
      = some (name, v) := by
    rw [hstrip1]
    exact splitAtFirst_append '=' name v hmem
  have hsplit0 : splitAtFirst '='
      (stripDashes (List.replicate n '-' ++ name)) = none := by
    rw [hstrip0]
    exact splitAtFirst_not_mem '=' name hmem
  have hlen0' : (List.replicate n '-' ++ name).length ≥ 2 := by
    rw [← hnil]
    exact hlen0
  have hhead0' : (List.replicate n '-' ++ name).head? = some '-' := by
    rw [← hnil]
    exact hhead0
  have hke0 : stripDashes (List.replicate n '-' ++ name) ≠ [] := by
    rw [hstrip0]
    exact hne
  refine ⟨?_, ?_, ?_, ?_, ?_, ?_⟩
  · intro hskip
    exact parseArgsAux_skip pfx t rest [] hskip
  · rw [parseArgsToFlagMap,
      parseArgsAux_eq_token pfx _ name v [] [] hlen1 hhead1 hsplit1]
    simp only [parseArgsAux]
    exact registerFlag_lookup_self ..
  · intro hwf
    rw [parseArgsToFlagMap,
      parseArgsAux_bare_consume pfx _ w [] [] hlen0' hhead0' hke0 hsplit0 hwf,
      hstrip0]
    simp only [parseArgsAux]
    exact registerFlag_lookup_self ..
  · rw [parseArgsToFlagMap,
      parseArgsAux_bare_last pfx _ [] hlen0' hhead0' hke0 hsplit0, hstrip0]
    exact registerFlag_lookup_self ..
  · intro hw2
    rw [parseArgsToFlagMap,
      parseArgsAux_bare_before_flag pfx _ w2 rest [] hlen0' hhead0' hke0 hsplit0 hw2,
      hstrip0]
  · exact parseArgsAux_last_wins pfx name v n hn hne hh hmem args.length args [] le_rfl

/-- Witness for C7 at concrete inputs: `["plain"]` parses to nothing;
`--a=1` yields `a=1`; `["-i","5"]` yields `i=5`; a bare `--b` yields
`true`; `["--b","-x"]` registers `b=true` before scanning `-x`; and in
`["--a=0","--a=1"]` the last occurrence wins. -/
theorem parseArgsToFlagMap_tokenization_witness :
    parseArgsToFlagMap ["plain".toList] [] = parseArgsToFlagMap [] [] ∧
    mapLookup "a".toList (parseArgsToFlagMap ["--a=1".toList] [])
      = some "1".toList ∧
    mapLookup "i".toList (parseArgsToFlagMap ["-i".toList, "5".toList] [])
      = some "5".toList ∧
    mapLookup "b".toList (parseArgsToFlagMap ["--b".toList] [])
      = some "true".toList ∧
    parseArgsToFlagMap ["--b".toList, "-x".toList] []
      = parseArgsAux [] ["-x".toList]
          (registerFlag "b".toList "true".toList [] []) ∧
    mapLookup "a".toList
      (parseArgsToFlagMap ["--a=0".toList, "--a=1".toList] [])
      = some "1".toList := by
  obtain ⟨h1, h2, -, -, -, -⟩ :=
    parseArgsToFlagMap_tokenization [] "a".toList "1".toList "5".toList
      "-x".toList "plain".toList [] ["--a=0".toList] 2 (by decide) (by decide)
      (by decide) (by decide)
  obtain ⟨-, -, h3, -, -, -⟩ :=
    parseArgsToFlagMap_tokenization [] "i".toList "1".toList "5".toList
      "-x".toList "plain".toList [] [] 1 (by decide) (by decide)
      (by decide) (by decide)
  obtain ⟨-, -, -, h4, h5, -⟩ :=
    parseArgsToFlagMap_tokenization [] "b".toList "1".toList "5".toList
      "-x".toList "plain".toList [] [] 2 (by decide) (by decide)
      (by decide) (by decide)
  obtain ⟨-, -, -, -, -, h6⟩ :=
    parseArgsToFlagMap_tokenization [] "a".toList "1".toList "5".toList
      "-x".toList "plain".toList [] ["--a=0".toList] 2 (by decide) (by decide)
      (by decide) (by decide)
  refine ⟨h1 (by decide), ?_, h3 (by decide), h4, h5 (by decide), ?_⟩
  · exact h2
  · exact h6

/-! ## C5: prefix handling between the argv parser and flag assignment -/

theorem startsWithL_append_self (p s : GoStr) : startsWithL (p ++ s) p = true := by
  induction p with
  | nil => cases s <;> simp [startsWithL]
  | cons c rest ih => simpa [startsWithL] using ih

theorem trimPfxL_append_self (p s : GoStr) : trimPfxL (p ++ s) p = s := by
  simp [trimPfxL, startsWithL_append_self, List.drop_left]

theorem append_ne_self_of_ne_nil (p s : GoStr) (hp : p ≠ []) : p ++ s ≠ s := by
  intro he
  have : (p ++ s).length = s.length := by rw [he]
  simp at this
  exact hp this

/-- Registering a key that carries the prefix stores it under both its
own spelling and the de-prefixed spelling. -/
theorem registerFlag_prefixed (pfx name v : GoStr) (m : List (GoStr × GoStr))
    (hp : pfx ≠ []) (hname : name ≠ []) :
    registerFlag (pfx ++ name) v pfx m
      = mapInsert name v (mapInsert (pfx ++ name) v m) := by
  unfold registerFlag
  rw [if_pos ⟨hp, startsWithL_append_self pfx name⟩, trimPfxL_append_self,
    if_pos hname]

/-- Registering a key that does not carry the prefix stores it only
under its own spelling. -/
theorem registerFlag_unprefixed (key v pfx : GoStr) (m : List (GoStr × GoStr))
    (hns : startsWithL key pfx = false) :
    registerFlag key v pfx m = mapInsert key v m := by
  unfold registerFlag
  rw [if_neg]
  intro hc
  rw [hns] at hc
  exact absurd hc.2 (by simp)

/-- **C5 counterexample.** With prefix `config-` configured, the
parsed key `secret` of `--secret=v` is registered only under its own
unprefixed spelling: the prefixed form `config-secret` is *not* in the
resulting map, contradicting the claim that both forms of every parsed
key are registered. -/
theorem parseArgsToFlagMap_pfx_counterexample :
    mapLookup "secret".toList
      (parseArgsToFlagMap ["--secret=v".toList] "config-".toList)
      = some "v".toList ∧
    mapLookup "config-secret".toList
      (parseArgsToFlagMap ["--secret=v".toList] "config-".toList) = none :=
  ⟨rfl, rfl⟩

/-- **C5 (amended).** With a nonempty prefix configured: a parsed key
that carries the prefix is registered under both the prefixed and the
de-prefixed spelling, while a parsed key without the prefix is
registered only under itself; `assignFlagsFromMap` looks a field up by
its bare tag name first and falls back to the prefixed name; hence a
flag supplied under either spelling is applied to the field. -/
theorem parse_assign_pfx_resolution (pfx name v s0 fname : GoStr)
    (values : List (GoStr × GoStr)) (n : Nat) (hn : 1 ≤ n) (hp : pfx ≠ [])
    (hpd : pfx.head? ≠ some '-') (hpe : '=' ∉ pfx) (hname : name ≠ [])
    (hnd : name.head? ≠ some '-') (hne : '=' ∉ name)
    (hns : startsWithL name pfx = false) :
    (mapLookup (pfx ++ name) (parseArgsToFlagMap
        [List.replicate n '-' ++ ((pfx ++ name) ++ '=' :: v)] pfx) = some v ∧
     mapLookup name (parseArgsToFlagMap
        [List.replicate n '-' ++ ((pfx ++ name) ++ '=' :: v)] pfx) = some v) ∧
    (mapLookup name (parseArgsToFlagMap
        [List.replicate n '-' ++ (name ++ '=' :: v)] pfx) = some v ∧
     mapLookup (pfx ++ name) (parseArgsToFlagMap
        [List.replicate n '-' ++ (name ++ '=' :: v)] pfx) = none) ∧
    (∀ v0, mapLookup name values = some v0 → flagValueFor values pfx name = some v0) ∧
    (mapLookup name values = none →
      flagValueFor values pfx name = mapLookup (pfx ++ name) values) ∧
    (assignFlagsFromMap (parseArgsToFlagMap
        [List.replicate n '-' ++ ((pfx ++ name) ++ '=' :: v)] pfx) pfx
        [⟨fname, .vString s0, [("flag".toList, name)]⟩]
      = .ok [⟨fname, .vString v, [("flag".toList, name)]⟩] ∧
     assignFlagsFromMap (parseArgsToFlagMap
        [List.replicate n '-' ++ (name ++ '=' :: v)] pfx) pfx
        [⟨fname, .vString s0, [("flag".toList, name)]⟩]
      = .ok [⟨fname, .vString v, [("flag".toList, name)]⟩]) := by
  have hpn : (pfx ++ name : GoStr) ≠ [] := by
    intro he
    exact hp (List.append_eq_nil.mp he).1
  have hpnd : (pfx ++ name).head? ≠ some '-' := by
    rwa [head?_append_of_ne_nil pfx name hp]
  have hpne : '=' ∉ pfx ++ name := by
    intro hm
    rcases List.mem_append.mp hm with h | h
    · exact hpe h
    · exact hne h
  -- parse of the prefixed spelling
  obtain ⟨hlen1, hhead1, hstrip1⟩ :=
    dashToken_shape n (pfx ++ name) ('=' :: v) hn hpn hpnd
  have hsplit1 : splitAtFirst '='
      (stripDashes (List.replicate n '-' ++ ((pfx ++ name) ++ '=' :: v)))
      = some (pfx ++ name, v) := by
    rw [hstrip1]
    exact splitAtFirst_append '=' (pfx ++ name) v hpne
  have hmap1 : parseArgsToFlagMap
      [List.replicate n '-' ++ ((pfx ++ name) ++ '=' :: v)] pfx
      = mapInsert name v (mapInsert (pfx ++ name) v []) := by
    rw [parseArgsToFlagMap,
      parseArgsAux_eq_token pfx _ (pfx ++ name) v [] [] hlen1 hhead1 hsplit1]
    simp only [parseArgsAux]
    exact registerFlag_prefixed pfx name v [] hp hname
  -- parse of the unprefixed spelling
  obtain ⟨hlen2, hhead2, hstrip2⟩ := dashToken_shape n name ('=' :: v) hn hname hnd
  have hsplit2 : splitAtFirst '='
      (stripDashes (List.replicate n '-' ++ (name ++ '=' :: v)))
      = some (name, v) := by
    rw [hstrip2]
    exact splitAtFirst_append '=' name v hne
  have hmap2 : parseArgsToFlagMap
      [List.replicate n '-' ++ (name ++ '=' :: v)] pfx
      = mapInsert name v [] := by
    rw [parseArgsToFlagMap,
      parseArgsAux_eq_token pfx _ name v [] [] hlen2 hhead2 hsplit2]
    simp only [parseArgsAux]
    exact registerFlag_unprefixed name v pfx [] hns
  have hneq : (pfx ++ name : GoStr) ≠ name := append_ne_self_of_ne_nil pfx name hp
  have hlk1p : mapLookup (pfx ++ name)
      (mapInsert name v (mapInsert (pfx ++ name) v [])) = some v := by
    rw [mapLookup_mapInsert_ne (pfx ++ name) name v _ (fun h => hneq h.symm)]
    exact mapLookup_mapInsert_self ..
  have hlk1n : mapLookup name
      (mapInsert name v (mapInsert (pfx ++ name) v [])) = some v :=
    mapLookup_mapInsert_self ..
  have hlk2n : mapLookup name (mapInsert name v []) = some v :=
    mapLookup_mapInsert_self ..
  have hlk2p : mapLookup (pfx ++ name) (mapInsert name v []) = none := by
    rw [mapLookup_mapInsert_ne _ _ _ _ (fun h => hneq h.symm)]
    rfl
  have hfv1 : flagValueFor (mapInsert name v (mapInsert (pfx ++ name) v []))
      pfx name = some v := by
    unfold flagValueFor
    rw [hlk1n]
  have hfv2 : flagValueFor (mapInsert name v []) pfx name = some v := by
    unfold flagValueFor
    rw [hlk2n]
  have hassign : ∀ vals, flagValueFor vals pfx name = some v →
      assignFlagsFromMap vals pfx
        [⟨fname, .vString s0, [("flag".toList, name)]⟩]
      = .ok [⟨fname, .vString v, [("flag".toList, name)]⟩] := by
    intro vals hfv
    have htag : tagGet "flag".toList
        (⟨fname, .vString s0, [("flag".toList, name)]⟩ : CField) = name := by
      simp [tagGet, mapLookup]
    simp only [assignFlagsFromMap, assignFlagField, htag]
    rw [if_neg hname, hfv]
    rfl
  refine ⟨⟨?_, ?_⟩, ⟨?_, ?_⟩, ?_, ?_, ?_, ?_⟩
  · rw [hmap1]; exact hlk1p
  · rw [hmap1]; exact hlk1n
  · rw [hmap2]; exact hlk2n
  · rw [hmap2]; exact hlk2p
  · intro v0 hv0
    unfold flagValueFor
    rw [hv0]
  · intro hnone
    unfold flagValueFor
    rw [hnone, if_pos hp]
  · rw [hmap1]
    exact hassign _ hfv1
  · rw [hmap2]
    exact hassign _ hfv2

/-- Witness for the amended C5 at concrete inputs: prefix `config-`,
name `secret`, both `--config-secret=v` and `--secret=v`. -/
theorem parse_assign_pfx_resolution_witness :
    mapLookup "config-secret".toList (parseArgsToFlagMap
      ["--config-secret=v".toList] "config-".toList) = some "v".toList ∧
    assignFlagsFromMap (parseArgsToFlagMap ["--config-secret=v".toList]
        "config-".toList) "config-".toList
        [⟨"Key".toList, .vString [], [("flag".toList, "secret".toList)]⟩]
      = .ok [⟨"Key".toList, .vString "v".toList,
          [("flag".toList, "secret".toList)]⟩] ∧
    assignFlagsFromMap (parseArgsToFlagMap ["--secret=v".toList]
        "config-".toList) "config-".toList
        [⟨"Key".toList, .vString [], [("flag".toList, "secret".toList)]⟩]
      = .ok [⟨"Key".toList, .vString "v".toList,
          [("flag".toList, "secret".toList)]⟩] := by
  obtain ⟨⟨h1, -⟩, -, -, -, h5, h6⟩ :=
    parse_assign_pfx_resolution "config-".toList "secret".toList "v".toList
      [] "Key".toList [] 2 (by decide) (by decide) (by decide) (by decide)
      (by decide) (by decide) (by decide) (by decide)
  exact ⟨h1, h5, h6⟩

/-! ## C9: the bounded upward search -/

/-- The directory reached after `i` upward steps. -/
def iterDir (dirOf : GoStr → GoStr) : Nat → GoStr → GoStr
  | 0, p => p
  | n + 1, p => iterDir dirOf n (dirOf p)

theorem searchUpwardsAux_ok (stat : GoStr → Bool) (dirOf : GoStr → GoStr)
    (join : GoStr → GoStr → GoStr) (cfgFile : GoStr) :
    ∀ fuel path r, searchUpwardsAux stat dirOf join cfgFile fuel path = .ok r →
      ∃ i < fuel, r = join (iterDir dirOf i path) cfgFile ∧
        stat (join (iterDir dirOf i path) cfgFile) = true ∧
        ∀ j < i, stat (join (iterDir dirOf j path) cfgFile) = false := by
  intro fuel
  induction fuel with
  | zero =>
    intro path r h
    exact absurd h (by simp [searchUpwardsAux])
  | succ n ih =>
    intro path r h
    by_cases hs : stat (join path cfgFile)
    · refine ⟨0, Nat.succ_pos n, ?_, by simpa [iterDir] using hs, by omega⟩
      simp [searchUpwardsAux, hs] at h
      simp [iterDir, ← h]
    · rw [searchUpwardsAux, if_neg hs] at h
      by_cases hroot : path = "/".toList ∨ path = ".".toList
      · rw [if_pos hroot] at h
        exact absurd h (by simp)
      · rw [if_neg hroot] at h
        by_cases hemp : dirOf path = []
        · rw [if_pos hemp] at h
          exact absurd h (by simp)
        · rw [if_neg hemp] at h
          obtain ⟨i, hilt, hr, hstat, hprev⟩ := ih (dirOf path) r h
          refine ⟨i + 1, Nat.succ_lt_succ hilt, hr, hstat, ?_⟩
          intro j hj
          cases j with
          | zero => simpa [iterDir] using hs
          | succ j' => exact hprev j' (Nat.lt_of_succ_lt_succ hj)

theorem searchUpwardsAux_not_found (stat : GoStr → Bool)
    (dirOf : GoStr → GoStr) (join : GoStr → GoStr → GoStr) (cfgFile : GoStr) :
    ∀ fuel path, (∀ i < fuel, stat (join (iterDir dirOf i path) cfgFile) = false) →
      searchUpwardsAux stat dirOf join cfgFile fuel path
        = .error (.configNotFound cfgFile) := by
  intro fuel
  induction fuel with
  | zero => intro path _; rfl
  | succ n ih =>
    intro path hall
    have hs : stat (join path cfgFile) = false := by
      simpa [iterDir] using hall 0 (Nat.succ_pos n)
    rw [searchUpwardsAux, if_neg (by simp [hs])]
    by_cases hroot : path = "/".toList ∨ path = ".".toList
    · rw [if_pos hroot]
    · rw [if_neg hroot]
      by_cases hemp : dirOf path = []
      · rw [if_pos hemp]
      · rw [if_neg hemp]
        exact ih (dirOf path) (fun i hi => hall (i + 1) (Nat.succ_lt_succ hi))

theorem searchUpwardsAux_shape (stat : GoStr → Bool) (dirOf : GoStr → GoStr)
    (join : GoStr → GoStr → GoStr) (cfgFile : GoStr) :
    ∀ fuel path, (∃ r, searchUpwardsAux stat dirOf join cfgFile fuel path = .ok r)
      ∨ searchUpwardsAux stat dirOf join cfgFile fuel path
          = .error (.configNotFound cfgFile) := by
  intro fuel
  induction fuel with
  | zero => intro path; exact Or.inr rfl
  | succ n ih =>
    intro path
    by_cases hs : stat (join path cfgFile)
    · exact Or.inl ⟨join path cfgFile, by simp [searchUpwardsAux, hs]⟩
    · rw [searchUpwardsAux, if_neg hs]
      by_cases hroot : path = "/".toList ∨ path = ".".toList
      · rw [if_pos hroot]
        exact Or.inr rfl
      · rw [if_neg hroot]
        by_cases hemp : dirOf path = []
        · rw [if_pos hemp]
          exact Or.inr rfl
        · rw [if_neg hemp]
          exact ih (dirOf path)

/-- **C9.** `searchUpwards` (a total function whose walk is bounded by
`maxLevels = 10` iterations): a successful result is the first of the
at most 10 upward directory levels at which the file exists; when no
level within the bound has the file, the result is the error wrapping
`ErrConfigNotFound`; and every outcome is either a success or that
error (the early stops at the filesystem root and at an empty parent
also produce it). -/
theorem searchUpwards_spec (stat : GoStr → Bool) (dirOf : GoStr → GoStr)
    (join : GoStr → GoStr → GoStr) (path cfgFile : GoStr) :
    (∀ r, searchUpwards stat dirOf join path cfgFile = .ok r →
      ∃ i < 10, r = join (iterDir dirOf i path) cfgFile ∧
        stat (join (iterDir dirOf i path) cfgFile) = true ∧
        ∀ j < i, stat (join (iterDir dirOf j path) cfgFile) = false) ∧
    ((∀ i < 10, stat (join (iterDir dirOf i path) cfgFile) = false) →
      searchUpwards stat dirOf join path cfgFile
        = .error (.configNotFound cfgFile)) ∧
    ((∃ r, searchUpwards stat dirOf join path cfgFile = .ok r) ∨
      searchUpwards stat dirOf join path cfgFile
        = .error (.configNotFound cfgFile)) :=
  ⟨fun r h => searchUpwardsAux_ok stat dirOf join cfgFile 10 path r h,
   fun hall => searchUpwardsAux_not_found stat dirOf join cfgFile 10 path hall,
   searchUpwardsAux_shape stat dirOf join cfgFile 10 path⟩

/-- Witness for C9 at concrete inputs: a file present two levels up is
found (at the first such level), and a search over a filesystem with
no match returns the `ErrConfigNotFound`-wrapped error. -/
theorem searchUpwards_spec_witness :
    (∃ i < 10, ("/a/config.json").toList
        = joinPath (iterDir dirPath i "/a/b/c".toList) "config.json".toList ∧
      (decide (joinPath (iterDir dirPath i "/a/b/c".toList) "config.json".toList
          = "/a/config.json".toList) : Bool) = true ∧
      ∀ j < i, (decide (joinPath (iterDir dirPath j "/a/b/c".toList)
          "config.json".toList = "/a/config.json".toList) : Bool) = false) ∧
    searchUpwards (fun _ => false) dirPath joinPath "/w".toList
        "config.json".toList
      = .error (.configNotFound "config.json".toList) := by
  constructor
  · exact (searchUpwards_spec
      (fun p => decide (p = "/a/config.json".toList)) dirPath joinPath
      "/a/b/c".toList "config.json".toList).1 "/a/config.json".toList rfl
  · exact (searchUpwards_spec (fun _ => false) dirPath joinPath
      "/w".toList "config.json".toList).2.1 (fun i _ => rfl)

/-! ## C8: discovery allocation is tag-independent and idempotent -/

/-- The record-mutation part of the discovery walk in isolation: the
same traversal as `findFieldsWithTag`, without the handle collection
(which never influences the mutation). -/
def updWalk : RecVal → RecVal
  | .nil => .nil
  | .consPrim s tags v rest => .consPrim s tags v (updWalk rest)
  | .consStrct s tags sub rest =>
    if ¬ s then .consStrct s tags sub (updWalk rest)
    else .consStrct s tags (updWalk sub) (updWalk rest)
  | .consPtrNil s tags ty rest =>
    if ¬ s then .consPtrNil s tags ty (updWalk rest)
    else .consPtrSome s tags (updWalk (zeroRec ty)) (updWalk rest)
  | .consPtrSome s tags sub rest =>
    if ¬ s then .consPtrSome s tags sub (updWalk rest)
    else .consPtrSome s tags (updWalk sub) (updWalk rest)
termination_by r => valWeight r
decreasing_by all_goals simp_arith [valWeight, valWeight_zeroRec]

theorem find_snd_eq_updWalk (t : GoStr) (r : RecVal) :
    (findFieldsWithTag t r).2 = updWalk r := by
  have key : ∀ n r, valWeight r ≤ n → ∀ t : GoStr,
      (findFieldsWithTag t r).2 = updWalk r := by
    intro n
    induction n with
    | zero =>
      intro r h t
      cases r with
      | nil => simp [findFieldsWithTag, updWalk]
      | consPrim s tags v rest => simp [valWeight] at h
      | consStrct s tags sub rest => simp [valWeight] at h
      | consPtrNil s tags ty rest => simp [valWeight] at h
      | consPtrSome s tags sub rest => simp [valWeight] at h
    | succ n ih =>
      intro r h t
      cases r with
      | nil => simp [findFieldsWithTag, updWalk]
      | consPrim s tags v rest =>
        have hr : valWeight rest ≤ n := by simp [valWeight] at h; omega
        by_cases hs : s = true
        · simp [findFieldsWithTag, updWalk, hs, ih rest hr t]
        · simp [findFieldsWithTag, updWalk, hs, ih rest hr t]
      | consStrct s tags sub rest =>
        have hr : valWeight rest ≤ n := by simp [valWeight] at h; omega
        have hsub : valWeight sub ≤ n := by simp [valWeight] at h; omega
        by_cases hs : s = true
        · simp [findFieldsWithTag, updWalk, hs, ih rest hr t, ih sub hsub t]
        · simp [findFieldsWithTag, updWalk, hs, ih rest hr t]
      | consPtrNil s tags ty rest =>
        have hr : valWeight rest ≤ n := by simp [valWeight] at h; omega
        have hz : valWeight (zeroRec ty) ≤ n := by
          rw [valWeight_zeroRec]
          simp [valWeight] at h
          omega
        by_cases hs : s = true
        · simp [findFieldsWithTag, updWalk, hs, ih rest hr t, ih (zeroRec ty) hz t]
        · simp [findFieldsWithTag, updWalk, hs, ih rest hr t]
      | consPtrSome s tags sub rest =>
        have hr : valWeight rest ≤ n := by simp [valWeight] at h; omega
        have hsub : valWeight sub ≤ n := by simp [valWeight] at h; omega
        by_cases hs : s = true
        · simp [findFieldsWithTag, updWalk, hs, ih rest hr t, ih sub hsub t]
        · simp [findFieldsWithTag, updWalk, hs, ih rest hr t]
  exact key (valWeight r) r le_rfl t

theorem valWeight_updWalk_le (r : RecVal) : valWeight (updWalk r) ≤ valWeight r := by
  have key : ∀ n r, valWeight r ≤ n → valWeight (updWalk r) ≤ valWeight r := by
    intro n
    induction n with
    | zero =>
      intro r h
      cases r with
      | nil => simp [updWalk]
      | consPrim s tags v rest => simp [valWeight] at h
      | consStrct s tags sub rest => simp [valWeight] at h
      | consPtrNil s tags ty rest => simp [valWeight] at h
      | consPtrSome s tags sub rest => simp [valWeight] at h
    | succ n ih =>
      intro r h
      cases r with
      | nil => simp [updWalk]
      | consPrim s tags v rest =>
        have hr : valWeight rest ≤ n := by simp [valWeight] at h; omega
        have := ih rest hr
        simp [updWalk, valWeight]
        omega
      | consStrct s tags sub rest =>
        have hr : valWeight rest ≤ n := by simp [valWeight] at h; omega
        have hsub : valWeight sub ≤ n := by simp [valWeight] at h; omega
        have h1 := ih rest hr
        have h2 := ih sub hsub
        by_cases hs : s = true
        · simp [updWalk, valWeight, hs]
          omega
        · simp [updWalk, valWeight, hs]
          omega
      | consPtrNil s tags ty rest =>
        have hr : valWeight rest ≤ n := by simp [valWeight] at h; omega
        have hz : valWeight (zeroRec ty) ≤ n := by
          rw [valWeight_zeroRec]
          simp [valWeight] at h
          omega
        have h1 := ih rest hr
        have h2 := ih (zeroRec ty) hz
        rw [valWeight_zeroRec] at h2
        by_cases hs : s = true
        · simp [updWalk, valWeight, hs, valWeight_zeroRec] at h2 ⊢
          omega
        · simp [updWalk, valWeight, hs]
          omega
      | consPtrSome s tags sub rest =>
        have hr : valWeight rest ≤ n := by simp [valWeight] at h; omega
        have hsub : valWeight sub ≤ n := by simp [valWeight] at h; omega
        have h1 := ih rest hr
        have h2 := ih sub hsub
        by_cases hs : s = true
        · simp [updWalk, valWeight, hs]
          omega
        · simp [updWalk, valWeight, hs]
          omega
  exact key (valWeight r) r le_rfl

theorem updWalk_idem (r : RecVal) : updWalk (updWalk r) = updWalk r := by
  have key : ∀ n r, valWeight r ≤ n → updWalk (updWalk r) = updWalk r := by
    intro n
    induction n with
    | zero =>
      intro r h
      cases r with
      | nil => simp [updWalk]
      | consPrim s tags v rest => simp [valWeight] at h
      | consStrct s tags sub rest => simp [valWeight] at h
      | consPtrNil s tags ty rest => simp [valWeight] at h
      | consPtrSome s tags sub rest => simp [valWeight] at h
    | succ n ih =>
      intro r h
      cases r with
      | nil => simp [updWalk]
      | consPrim s tags v rest =>
        have hr : valWeight rest ≤ n := by simp [valWeight] at h; omega
        simp [updWalk, ih rest hr]
      | consStrct s tags sub rest =>
        have hr : valWeight rest ≤ n := by simp [valWeight] at h; omega
        have hsub : valWeight sub ≤ n := by simp [valWeight] at h; omega
        by_cases hs : s = true
        · simp [updWalk, hs, ih rest hr, ih sub hsub]
        · simp [updWalk, hs, ih rest hr]
      | consPtrNil s tags ty rest =>
        have hr : valWeight rest ≤ n := by simp [valWeight] at h; omega
        have hz : valWeight (zeroRec ty) ≤ n := by
          rw [valWeight_zeroRec]
          simp [valWeight] at h
          omega
        by_cases hs : s = true
        · simp [updWalk, hs, ih rest hr, ih (zeroRec ty) hz]
        · simp [updWalk, hs, ih rest hr]
      | consPtrSome s tags sub rest =>
        have hr : valWeight rest ≤ n := by simp [valWeight] at h; omega
        have hsub : valWeight sub ≤ n := by simp [valWeight] at h; omega
        by_cases hs : s = true
        · simp [updWalk, hs, ih rest hr, ih sub hsub]
        · simp [updWalk, hs, ih rest hr]
  exact key (valWeight r) r le_rfl

/-- The direct primitive field values of a record, in declaration
order. -/
def topPrims : RecVal → List GoValue
  | .nil => []
  | .consPrim _ _ v rest => v :: topPrims rest
  | .consStrct _ _ _ rest => topPrims rest
  | .consPtrNil _ _ _ rest => topPrims rest
  | .consPtrSome _ _ _ rest => topPrims rest

theorem topPrims_updWalk (r : RecVal) : topPrims (updWalk r) = topPrims r := by
  have key : ∀ n r, valWeight r ≤ n → topPrims (updWalk r) = topPrims r := by
    intro n
    induction n with
    | zero =>
      intro r h
      cases r with
      | nil => simp [updWalk]
      | consPrim s tags v rest => simp [valWeight] at h
      | consStrct s tags sub rest => simp [valWeight] at h
      | consPtrNil s tags ty rest => simp [valWeight] at h
      | consPtrSome s tags sub rest => simp [valWeight] at h
    | succ n ih =>
      intro r h
      cases r with
      | nil => simp [updWalk]
      | consPrim s tags v rest =>
        have hr : valWeight rest ≤ n := by simp [valWeight] at h; omega
        simp [updWalk, topPrims, ih rest hr]
      | consStrct s tags sub rest =>
        have hr : valWeight rest ≤ n := by simp [valWeight] at h; omega
        by_cases hs : s = true
        · simp [updWalk, topPrims, hs, ih rest hr]
        · simp [updWalk, topPrims, hs, ih rest hr]
      | consPtrNil s tags ty rest =>
        have hr : valWeight rest ≤ n := by simp [valWeight] at h; omega
        by_cases hs : s = true
        · simp [updWalk, topPrims, hs, ih rest hr]
        · simp [updWalk, topPrims, hs, ih rest hr]
      | consPtrSome s tags sub rest =>
        have hr : valWeight rest ≤ n := by simp [valWeight] at h; omega
        by_cases hs : s = true
        · simp [updWalk, topPrims, hs, ih rest hr]
        · simp [updWalk, topPrims, hs, ih rest hr]
  exact key (valWeight r) r le_rfl

/-- **C8.** Discovery allocation: a settable nil pointer-to-struct
field becomes, after one `findFieldsWithTag` pass for any tag, a
non-nil pointer to a freshly allocated zero value (itself traversed by
the same walk); the record mutation does not depend on the tag
searched for; a second pass for any (possibly different) tag leaves
the record exactly as the first pass left it (no reallocation); and no
pass ever changes the directly held primitive field values, so the
allocated struct's own primitive fields are exactly the type's zero
values. -/
theorem findFieldsWithTag_alloc_spec (t t' : GoStr) (r rest : RecVal)
    (tags : List (GoStr × GoStr)) (ty : RecTy) :
    (findFieldsWithTag t (.consPtrNil true tags ty rest)).2
      = .consPtrSome true tags (findFieldsWithTag t (zeroRec ty)).2
          (findFieldsWithTag t rest).2 ∧
    (findFieldsWithTag t r).2 = (findFieldsWithTag t' r).2 ∧
    (findFieldsWithTag t ((findFieldsWithTag t' r).2)).2
      = (findFieldsWithTag t' r).2 ∧
    topPrims ((findFieldsWithTag t r).2) = topPrims r ∧
    topPrims ((findFieldsWithTag t (zeroRec ty)).2) = topPrims (zeroRec ty) := by
  refine ⟨?_, ?_, ?_, ?_, ?_⟩
  · rw [find_snd_eq_updWalk, find_snd_eq_updWalk, find_snd_eq_updWalk]
    simp [updWalk]
  · rw [find_snd_eq_updWalk, find_snd_eq_updWalk]
  · rw [find_snd_eq_updWalk, find_snd_eq_updWalk, updWalk_idem]
  · rw [find_snd_eq_updWalk]
    exact topPrims_updWalk r
  · rw [find_snd_eq_updWalk]
    exact topPrims_updWalk (zeroRec ty)

/-! ## C10: path setters keep state on validation failure -/

theorem lookupFile_eq_none_of_not_stat (sys : Sys) (path : GoStr)
    (h : statPath sys path = false) : lookupFile path sys.files = none := by
  unfold statPath at h
  cases hlf : lookupFile path sys.files with
  | none => rfl
  | some e => rw [hlf] at h; simp at h

/-- **C10.** `SetConfigPath` / `SetEnvPath` store the supplied path
before validating existence: when the file is missing they return the
not-found error *and* the path stays registered as explicit, so a
subsequent `WriteConfigValues` treats the missing file as an explicit
path and fails fatally on the read. -/
theorem setPath_state_kept_on_error (c : AntConfig) (sys : Sys) (path : GoStr)
    (cfg cfg1 : List CField) (toJSON : GoStr → GoStr)
    (decode : GoStr → Option JsonObj) (hstat : statPath sys path = false)
    (hp : path ≠ []) (hdef : setDefaultValues cfg = .ok cfg1) :
    (SetConfigPath c sys path).1.configPath = path ∧
    (SetConfigPath c sys path).2 = some (.configNotFound path) ∧
    (SetEnvPath c sys path).1.envPath = path ∧
    (SetEnvPath c sys path).2 = some (.envFileNotFound path) ∧
    WriteConfigValues ⟨c.envPath, path, c.flagArgs, c.flagPfx, c.flagSet,
        some cfg⟩ sys toJSON decode = .error (.fileReadErr path) ∧
    (∀ cfg2, fileMergeStage ⟨path, [], c.flagArgs, c.flagPfx, c.flagSet,
          some cfg⟩ sys toJSON decode cfg1 = .ok cfg2 →
      WriteConfigValues ⟨path, [], c.flagArgs, c.flagPfx, c.flagSet,
          some cfg⟩ sys toJSON decode = .error (.dotenvLoadErr path)) := by
  have hread : readFile sys path = .error (.fileReadErr path) := by
    unfold readFile
    rw [lookupFile_eq_none_of_not_stat sys path hstat]
  refine ⟨?_, ?_, ?_, ?_, ?_, ?_⟩
  · simp [SetConfigPath, hstat]
  · simp [SetConfigPath, hstat]
  · simp [SetEnvPath, hstat]
  · simp [SetEnvPath, hstat]
  · have hfile : fileMergeStage ⟨c.envPath, path, c.flagArgs, c.flagPfx,
        c.flagSet, some cfg⟩ sys toJSON decode cfg1
        = .error (.fileReadErr path) := by
      unfold fileMergeStage
      rw [if_pos hp, hread]
    simp only [WriteConfigValues, hdef, hfile]
  · intro cfg2 hfile
    have hdot : dotenvStage ⟨path, [], c.flagArgs, c.flagPfx, c.flagSet,
        some cfg⟩ sys = .error (.dotenvLoadErr path) := by
      unfold dotenvStage loadDotEnv
      rw [if_pos hp, hread]
    simp only [WriteConfigValues, hdef, hfile, hdot]

/-- Witness for C10 at a concrete input: registering the missing path
`/c/config.json` (an empty filesystem) errors but keeps the path, and
the follow-up resolution fails reading it. -/
theorem setPath_state_kept_on_error_witness :
    (SetConfigPath ⟨[], [], [], [], none, none⟩
        ⟨[], [], "/w".toList, []⟩ "/c/config.json".toList).1.configPath
      = "/c/config.json".toList ∧
    (SetConfigPath ⟨[], [], [], [], none, none⟩
        ⟨[], [], "/w".toList, []⟩ "/c/config.json".toList).2
      = some (.configNotFound "/c/config.json".toList) ∧
    WriteConfigValues ⟨[], "/c/config.json".toList, [], [], none,
        some [⟨"A".toList, .vString [], []⟩]⟩ ⟨[], [], "/w".toList, []⟩
        id (fun _ => none)
      = .error (.fileReadErr "/c/config.json".toList) := by
  obtain ⟨h1, h2, -, -, h5, -⟩ :=
    setPath_state_kept_on_error ⟨[], [], [], [], none, none⟩
      ⟨[], [], "/w".toList, []⟩ "/c/config.json".toList
      [⟨"A".toList, .vString [], []⟩] [⟨"A".toList, .vString [], []⟩]
      id (fun _ => none) rfl (by decide) rfl
  exact ⟨h1, h2, h5⟩

/-! ## C4: discovered-file failures — reads swallowed, decode fatal -/

/-- **C4 counterexample.** A decode failure of an auto-discovered
config file is *not* swallowed: with no explicit path registered and
`/w/config.jsonc` discovered but failing to decode, `WriteConfigValues`
aborts with a parse error, contradicting the claim that any failure to
read or decode a discovered file is swallowed. -/
theorem discovered_decode_failure_fatal :
    WriteConfigValues ⟨[], [], [], [], none,
        some [⟨"A".toList, .vString [], []⟩]⟩
      ⟨[("/w/config.jsonc".toList, .readable "BAD".toList)], [],
        "/w".toList, ["prog".toList]⟩
      id (fun _ => none)
      = .error (.discoveredParseErr "/w/config.jsonc".toList) := rfl

/-- A one-field record (string field `A` with default text `d`) used
to exercise the file-merge stage. -/
def c4Rec (d : GoStr) : List CField :=
  [⟨"A".toList, .vString [], [("default".toList, d)]⟩]

/-- The same record after the defaults stage. -/
def c4RecAfter (d : GoStr) : List CField :=
  [⟨"A".toList, .vString d, [("default".toList, d)]⟩]

/-- Working dir `/w` whose discovered `config.jsonc` exists but cannot
be read. -/
def c4SysUnreadable : Sys :=
  ⟨[("/w/config.jsonc".toList, .unreadable)], [], "/w".toList, ["prog".toList]⟩

/-- Working dir `/w` whose discovered `config.jsonc` reads as
`content`. -/
def c4SysReadable (content : GoStr) : Sys :=
  ⟨[("/w/config.jsonc".toList, .readable content)], [], "/w".toList,
    ["prog".toList]⟩

/-- A filesystem holding only the explicit path `/c/config.json` with
`content`. -/
def c4SysExplicit (content : GoStr) : Sys :=
  ⟨[("/c/config.json".toList, .readable content)], [], "/w".toList,
    ["prog".toList]⟩

/-- **C4 (amended).** In the file-merge stage: a *read* failure of an
auto-discovered config file is swallowed and resolution continues
silently (the record keeps its default-layer values), but a *decode*
failure is fatal even for a discovered file; with an explicitly
registered path both read and decode failures abort resolution. -/
theorem fileMerge_failure_policy (d content : GoStr) (toJSON : GoStr → GoStr)
    (decode : GoStr → Option JsonObj) (hd : d ≠ [])
    (hdec : decode (toJSON content) = none) :
    WriteConfigValues ⟨[], [], [], [], none, some (c4Rec d)⟩ c4SysUnreadable
        toJSON decode = .ok (c4RecAfter d, []) ∧
    WriteConfigValues ⟨[], [], [], [], none, some (c4Rec d)⟩
        (c4SysReadable content) toJSON decode
      = .error (.discoveredParseErr "/w/config.jsonc".toList) ∧
    WriteConfigValues ⟨[], "/c/config.json".toList, [], [], none,
          some (c4Rec d)⟩ c4SysUnreadable toJSON decode
      = .error (.fileReadErr "/c/config.json".toList) ∧
    WriteConfigValues ⟨[], "/c/config.json".toList, [], [], none,
          some (c4Rec d)⟩ (c4SysExplicit content) toJSON decode
      = .error (.fileParseErr "/c/config.json".toList) := by
  have hdef : setDefaultValues (c4Rec d) = .ok (c4RecAfter d) := by
    simp [c4Rec, c4RecAfter, setDefaultValues, setDefaultField, tagGet,
      mapLookup, hd, setFieldFromString]
  refine ⟨?_, ?_, ?_, ?_⟩
  · simp only [WriteConfigValues, hdef]
    simp [fileMergeStage, fileMergeCandidates, LocateFromWorkingDirUp,
      searchUpwards, searchUpwardsAux, statPath, lookupFile, readFile,
      joinPath, dirPath, splitAtFirst, dotenvStage, fieldsWithTag, tagGet,
      mapLookup, c4SysUnreadable, c4RecAfter]
  · simp only [WriteConfigValues, hdef]
    simp [fileMergeStage, fileMergeCandidates, LocateFromWorkingDirUp,
      searchUpwards, searchUpwardsAux, statPath, lookupFile, readFile,
      joinPath, dirPath, splitAtFirst, c4SysReadable, hdec]
  · simp only [WriteConfigValues, hdef]
    simp [fileMergeStage, statPath, lookupFile, readFile, c4SysUnreadable]
  · simp only [WriteConfigValues, hdef]
    simp [fileMergeStage, statPath, lookupFile, readFile, c4SysExplicit, hdec]

/-- Witness for the amended C4 at concrete inputs (`d = "defA"`,
undecodable content `"BAD"` under the identity normalizer and a decoder
rejecting everything). -/
theorem fileMerge_failure_policy_witness :
    WriteConfigValues ⟨[], [], [], [], none, some (c4Rec "defA".toList)⟩
        c4SysUnreadable id (fun _ => none)
      = .ok (c4RecAfter "defA".toList, []) ∧
    WriteConfigValues ⟨[], "/c/config.json".toList, [], [], none,
          some (c4Rec "defA".toList)⟩ (c4SysExplicit "BAD".toList) id
        (fun _ => none)
      = .error (.fileParseErr "/c/config.json".toList) := by
  obtain ⟨h1, -, -, h4⟩ :=
    fileMerge_failure_policy "defA".toList "BAD".toList id (fun _ => none)
      (by decide) rfl
  exact ⟨h1, h4⟩

/-! ## C1: the five-layer precedence cascade -/

theorem splitLines_no_newline (s : GoStr) (h : '\n' ∉ s) :
    splitLines s = [s] := by
  induction s with
  | nil => rfl
  | cons c rest ih =>
    have hc : c ≠ '\n' := fun he => h (he ▸ List.mem_cons_self c rest)
    have hr : ('\n' : Char) ∉ rest := fun hm => h (List.mem_cons_of_mem c hm)
    simp [splitLines, hc, ih hr]

/-- The tag bundle of the C1 test field: a default text `d`, the env
variable `EV`, the flag name `fv`. -/
def c1Tags (d : GoStr) : List (GoStr × GoStr) :=
  [("default".toList, d), ("env".toList, "EV".toList),
   ("flag".toList, "fv".toList)]

/-- The C1 test field holding string value `v`. -/
def c1Field (d v : GoStr) : CField := ⟨"A".toList, .vString v, c1Tags d⟩

/-- The C1 record as registered (zero-valued). -/
def c1Rec (d : GoStr) : List CField := [c1Field d []]

/-- The explicit config file `/c/config.json` with marker content. -/
def c1CfgEntry : GoStr × FileEntry :=
  ("/c/config.json".toList, .readable "FILE".toList)

/-- The explicit dotenv file `/e/.env` assigning `EV=dv`. -/
def c1EnvEntry (dv : GoStr) : GoStr × FileEntry :=
  ("/e/.env".toList, .readable ('E' :: 'V' :: '=' :: dv))

/-- The structural decoder for the C1 config file: the marker content
decodes to the object `{"A": fileV}`. -/
def c1Dec (fileV : GoStr) : GoStr → Option JsonObj :=
  fun s => if s = "FILE".toList then some [("A".toList, .vString fileV)] else none

/-- **C1.** The five-layer precedence cascade of `WriteConfigValues`
on a field supplied by all sources at once: with default `d`, config
file value `fileV`, dotenv value `dv`, OS value `osV` and flag value
`fv` all present, the field resolves to `fv`; with the flag removed,
to `osV`; with OS env also removed, to `dv`; with the dotenv file also
removed, to `fileV`; with the config file also removed, to the parsed
default `d` — i.e. the stages apply in the order defaults, file,
dotenv, env, flags. -/
theorem WriteConfigValues_precedence (d fileV dv osV fv : GoStr)
    (hd : d ≠ []) (hos : osV ≠ []) (hdv : dv ≠ [])
    (hnl : ('\n' : Char) ∉ dv)
    (hparse : parseEnvLine ('E' :: 'V' :: '=' :: dv)
      = some ("EV".toList, dv)) :
    WriteConfigValues ⟨"/e/.env".toList, "/c/config.json".toList,
        [('-' :: '-' :: 'f' :: 'v' :: '=' :: fv)], [], none, some (c1Rec d)⟩
      ⟨[c1CfgEntry, c1EnvEntry dv], [("EV".toList, osV)], "/w".toList,
        ["prog".toList]⟩ id (c1Dec fileV)
      = .ok ([c1Field d fv], [("EV".toList, osV)]) ∧
    WriteConfigValues ⟨"/e/.env".toList, "/c/config.json".toList,
        [], [], none, some (c1Rec d)⟩
      ⟨[c1CfgEntry, c1EnvEntry dv], [("EV".toList, osV)], "/w".toList,
        ["prog".toList]⟩ id (c1Dec fileV)
      = .ok ([c1Field d osV], [("EV".toList, osV)]) ∧
    WriteConfigValues ⟨"/e/.env".toList, "/c/config.json".toList,
        [], [], none, some (c1Rec d)⟩
      ⟨[c1CfgEntry, c1EnvEntry dv], [], "/w".toList, ["prog".toList]⟩
      id (c1Dec fileV)
      = .ok ([c1Field d dv], [("EV".toList, dv)]) ∧
    WriteConfigValues ⟨[], "/c/config.json".toList, [], [], none,
        some (c1Rec d)⟩
      ⟨[c1CfgEntry], [], "/w".toList, ["prog".toList]⟩ id (c1Dec fileV)
      = .ok ([c1Field d fileV], []) ∧
    WriteConfigValues ⟨[], [], [], [], none, some (c1Rec d)⟩
      ⟨[], [], "/w".toList, ["prog".toList]⟩ id (c1Dec fileV)
      = .ok ([c1Field d d], []) := by
  have hdef : setDefaultValues (c1Rec d) = .ok [c1Field d d] := by
    simp [c1Rec, c1Field, c1Tags, setDefaultValues, setDefaultField, tagGet,
      mapLookup, hd, setFieldFromString]
  have hsplitl : splitLines ('E' :: 'V' :: '=' :: dv)
      = [('E' :: 'V' :: '=' :: dv)] := by
    apply splitLines_no_newline
    intro hm
    simp at hm
    exact hnl hm
  have hflagmap : parseArgsToFlagMap [('-' :: '-' :: 'f' :: 'v' :: '=' :: fv)] []
      = [("fv".toList, fv)] := by
    rw [parseArgsToFlagMap, parseArgsAux_eq_token []
      ('-' :: '-' :: 'f' :: 'v' :: '=' :: fv) "fv".toList fv [] []
      (by simp only [List.length_cons]; omega) rfl
      (by simp [stripDashes, splitAtFirst])]
    simp [parseArgsAux, registerFlag, mapInsert]
  refine ⟨?_, ?_, ?_, ?_, ?_⟩
  · simp [WriteConfigValues, hdef, fileMergeStage, readFile, lookupFile,
      c1CfgEntry, c1EnvEntry, c1Dec, mergeDecoded, c1Field, c1Tags,
      dotenvStage, loadDotEnv, hsplitl, loadDotEnvLines, hparse, mapLookup,
      getenv, fieldsWithTag, tagGet, processEnvironment, processEnvField,
      hos, setFieldFromString, hflagmap, assignFlagsFromMap, assignFlagField,
      flagValueFor]
  · simp [WriteConfigValues, hdef, fileMergeStage, readFile, lookupFile,
      c1CfgEntry, c1EnvEntry, c1Dec, mergeDecoded, c1Field, c1Tags,
      dotenvStage, loadDotEnv, hsplitl, loadDotEnvLines, hparse, mapLookup,
      getenv, fieldsWithTag, tagGet, processEnvironment, processEnvField,
      hos, setFieldFromString, parseArgsToFlagMap, parseArgsAux,
      assignFlagsFromMap, assignFlagField, flagValueFor]
  · simp [WriteConfigValues, hdef, fileMergeStage, readFile, lookupFile,
      c1CfgEntry, c1EnvEntry, c1Dec, mergeDecoded, c1Field, c1Tags,
      dotenvStage, loadDotEnv, hsplitl, loadDotEnvLines, hparse, mapLookup,
      mapInsert, getenv, fieldsWithTag, tagGet, processEnvironment,
      processEnvField, hdv, setFieldFromString, parseArgsToFlagMap,
      parseArgsAux, assignFlagsFromMap, assignFlagField, flagValueFor]
  · simp [WriteConfigValues, hdef, fileMergeStage, readFile, lookupFile,
      c1CfgEntry, c1Dec, mergeDecoded, c1Field, c1Tags, dotenvStage,
      statPath, joinPath, getenv, fieldsWithTag, tagGet, processEnvironment,
      processEnvField, mapLookup, setFieldFromString, parseArgsToFlagMap,
      parseArgsAux, assignFlagsFromMap, assignFlagField, flagValueFor]
  · simp [WriteConfigValues, hdef, fileMergeStage, fileMergeCandidates,
      LocateFromWorkingDirUp, searchUpwards, searchUpwardsAux, statPath,
      lookupFile, joinPath, dirPath, splitAtFirst, dotenvStage, getenv,
      fieldsWithTag, tagGet, mapLookup, processEnvironment, processEnvField,
      parseArgsToFlagMap, parseArgsAux, assignFlagsFromMap, assignFlagField,
      flagValueFor]

/-- Witness for C1 at concrete inputs (`d="defA"`, `fileV="fileA"`,
`dv="dv"`, `osV="osv"`, `fv="flagv"`): the full cascade. -/
theorem WriteConfigValues_precedence_witness :
    WriteConfigValues ⟨"/e/.env".toList, "/c/config.json".toList,
        [('-' :: '-' :: 'f' :: 'v' :: '=' :: "flagv".toList)], [], none,
        some (c1Rec "defA".toList)⟩
      ⟨[c1CfgEntry, c1EnvEntry "dv".toList], [("EV".toList, "osv".toList)],
        "/w".toList, ["prog".toList]⟩ id (c1Dec "fileA".toList)
      = .ok ([c1Field "defA".toList "flagv".toList],
          [("EV".toList, "osv".toList)]) ∧
    WriteConfigValues ⟨[], [], [], [], none, some (c1Rec "defA".toList)⟩
      ⟨[], [], "/w".toList, ["prog".toList]⟩ id (c1Dec "fileA".toList)
      = .ok ([c1Field "defA".toList "defA".toList], []) := by
  obtain ⟨h1, -, -, -, h5⟩ :=
    WriteConfigValues_precedence "defA".toList "fileA".toList "dv".toList
      "osv".toList "flagv".toList (by decide) (by decide) (by decide)
      (by decide) rfl
  exact ⟨h1, h5⟩

end AntCfg
